import Mathlib

/-!
Verification of the leptjson JSON parser (src/leptjson.c, src/leptjson.h).

The C sources are embedded shallowly:

* The NUL-terminated input text is a `List Nat` of byte values; reading `*p`
  at the end of the list yields the terminator byte 0, exactly as in C an
  embedded 0 byte and the terminator are indistinguishable to the parser.
* The scratch buffer (`lept_context.stack`/`top`) is a list of tagged items,
  head = top of the stack.  A C push of one `char` is one `.byte` item and a
  C push of one `lept_value` (`sizeof(lept_value)` bytes, `memcpy`ed) is one
  `.val` item; `top` is the list length, so the C assertion `c.top == 0`
  becomes `stack = []`.  Byte counts (`sizeof`) are abstracted to item
  counts; the push/pop discipline is preserved exactly.
* `lept_value` is the tagged union: the type tag determines the payload.
  A number value stores the argument that C passes to `strtod`
  (`c->json` at the start of the number token): the stored double is a
  function of exactly those bytes.  Writes to the union without an update
  of the type tag (as on the `LEPT_PARSE_NUMBER_TOO_BIG` path) are not
  observable through the accessor API and are not modelled.
* `strtod`'s `ERANGE`/`HUGE_VAL` overflow test is an oracle parameter
  `tb : List Nat → Bool` of the parser: the C code's behaviour depends on
  libc only through this one boolean.
* The recursive-descent recursion is driven by a fuel parameter so that all
  definitions are structurally recursive (hence kernel-computable); fuel
  exhaustion yields `none`, and `lept_parse_value_sufficient` proves that the
  fuel supplied by `lept_parse` can never run out, so the `none` branch of
  `lept_parse_run` is dead code.
-/

namespace Leptjson

/-- The lept_type enum of leptjson.h. -/
inductive LeptType where
  | LEPT_NULL
  | LEPT_FALSE
  | LEPT_TRUE
  | LEPT_NUMBER
  | LEPT_STRING
  | LEPT_ARRAY
  | LEPT_OBJECT
deriving DecidableEq, Repr

/-- The anonymous parse-status enum of leptjson.h. -/
inductive LeptStatus where
  | LEPT_PARSE_OK
  | LEPT_PARSE_EXPECT_VALUE
  | LEPT_PARSE_INVALID_VALUE
  | LEPT_PARSE_NUMBER_TOO_BIG
  | LEPT_PARSE_MISS_QUOTATION_MARK
  | LEPT_PARSE_ROOT_NOT_SINGULAR
  | LEPT_PARSE_INVALID_STRING_ESCAPE
  | LEPT_PARSE_INVALID_UNICODE_HEX
  | LEPT_PARSE_INVALID_UNICODE_SURROGATE
  | LEPT_PARSE_INVALID_STRING_CHAR
  | LEPT_PARSE_MISS_COMMA_OR_SQUARE_BRACKET
deriving DecidableEq, Repr

/-- The lept_value struct: one active union payload per type tag.
For an array, `u.a.size` and `u.a.e` are separate fields in C and are kept
separate here (`none` models the NULL element pointer of an empty array);
a string stores its byte buffer (the stored length always equals the buffer
length, as `lept_set_string` establishes). -/
inductive LeptValue where
  | vnull
  | vfalse
  | vtrue
  | vnumber (jsonAtNumber : List Nat)
  | vstring (s : List Nat)
  | varray (size : Nat) (e : Option (List LeptValue))
  | vobject
deriving Repr

/-- An item of the scratch buffer: either one pushed character byte or one
staged whole lept_value (the C code memcpys `sizeof(lept_value)` bytes). -/
inductive StackItem where
  | byte (b : Nat)
  | val (v : LeptValue)
deriving Repr

/-- The scratch buffer contents, head = top.  `c.top` is the length. -/
abbrev Stack := List StackItem

/-- Result of one parser sub-call: the returned status, the out-value `v`
after the call, `c->json` after the call, and the scratch buffer after the
call. -/
structure POut where
  ret : LeptStatus
  v : LeptValue
  json : List Nat
  stack : Stack
deriving Repr

/-- lept_get_type. -/
def lept_get_type : LeptValue → LeptType
  | .vnull => .LEPT_NULL
  | .vfalse => .LEPT_FALSE
  | .vtrue => .LEPT_TRUE
  | .vnumber _ => .LEPT_NUMBER
  | .vstring _ => .LEPT_STRING
  | .varray _ _ => .LEPT_ARRAY
  | .vobject => .LEPT_OBJECT

/-- lept_get_array_size (the assert restricts callers to array values;
other values fall back to 0). -/
def lept_get_array_size : LeptValue → Nat
  | .varray n _ => n
  | _ => 0

/-- lept_get_array_element (the asserts restrict callers to array values and
indices below the size; out-of-contract access falls back to a null value,
where C would have undefined behaviour). -/
def lept_get_array_element : LeptValue → Nat → LeptValue
  | .varray _ (some es), i => es.getD i .vnull
  | _, _ => .vnull

/-- lept_set_string: frees the previous value and owns a fresh copy of the
given bytes (the NUL terminator appended by C is interoperability padding
outside the stored length and is not part of the value). -/
def lept_set_string (_v : LeptValue) (s : List Nat) : LeptValue :=
  .vstring s

/-- A heap allocation owned by a value: a string's character buffer or an
array's backing element storage. -/
inductive Freed where
  | strBuf (s : List Nat)
  | arrBuf (es : List LeptValue)
deriving Repr

/-- lept_free: the released allocations are returned alongside the reset
value.  The C code frees the character buffer when the type is
LEPT_STRING and otherwise frees nothing, then always resets the type to
LEPT_NULL (the union payload becomes unobservable). -/
def lept_free : LeptValue → LeptValue × List Freed
  | .vstring s => (.vnull, [.strBuf s])
  | _ => (.vnull, [])

mutual

/-- Second definition for comparison, following the spec's words
("free(value) — recursively releases owned content", "the owned content of
every child value before the array's backing storage"): every allocation
owned by a value, children of an array listed before its backing storage. -/
def spec_owned_content : LeptValue → List Freed
  | .vstring s => [.strBuf s]
  | .varray _ (some es) => spec_owned_content_list es ++ [.arrBuf es]
  | _ => []

/-- Owned content of a list of values, in order. -/
def spec_owned_content_list : List LeptValue → List Freed
  | [] => []
  | e :: es => spec_owned_content e ++ spec_owned_content_list es

end

/-- Reading `*p` from the NUL-terminated input: the end of the list is the
terminator byte 0. -/
def peekB : List Nat → Nat
  | [] => 0
  | b :: _ => b

/-- The ISDIGIT macro. -/
def isDigitB (b : Nat) : Bool := 48 ≤ b && b ≤ 57

/-- The ISDIGIT1TO9 macro. -/
def isDigit1To9B (b : Nat) : Bool := 49 ≤ b && b ≤ 57

/-- lept_parse_whitespace: skip space, tab, line feed, carriage return. -/
def lept_parse_whitespace : List Nat → List Nat
  | [] => []
  | b :: r =>
    if b = 32 || b = 9 || b = 10 || b = 13 then lept_parse_whitespace r
    else b :: r

/-- The comparison loop of lept_parse_literal: compare `c->json` with the
remaining characters of the literal; on success return `c->json + i`. -/
def litRest : List Nat → List Nat → Option (List Nat)
  | [], l => some l
  | x :: xs, l => if peekB l = x then litRest xs l.tail else none

/-- lept_parse_literal: EXPECT consumes the (asserted) first character, the
loop matches the rest; a mismatch returns INVALID_VALUE with `c->json` one
past the first character; success sets the type.  Only called with the
literals null/true/false, so only those type tags can be set. -/
def lept_parse_literal (l : List Nat) (v : LeptValue) (lit : List Nat)
    (t : LeptType) : LeptStatus × LeptValue × List Nat :=
  match l with
  | [] => (.LEPT_PARSE_INVALID_VALUE, v, l)
  | _ :: r =>
    match litRest lit.tail r with
    | some r2 =>
      (.LEPT_PARSE_OK,
       match t with
       | .LEPT_NULL => .vnull
       | .LEPT_TRUE => .vtrue
       | .LEPT_FALSE => .vfalse
       | _ => v,
       r2)
    | none => (.LEPT_PARSE_INVALID_VALUE, v, r)

/-- The digit-run scan `for (p++; ISDIGIT(*p); p++);`. -/
def skipDigits : List Nat → List Nat
  | [] => []
  | b :: r => if isDigitB b then skipDigits r else b :: r

/-- The integer part of the number grammar: a single 0, or a 1-9 digit run. -/
def numInt (p : List Nat) : Option (List Nat) :=
  if peekB p = 48 then some p.tail
  else if isDigit1To9B (peekB p) then some (skipDigits p.tail)
  else none

/-- The optional fraction part of the number grammar. -/
def numFrac (p : List Nat) : Option (List Nat) :=
  if peekB p = 46 then
    if isDigitB (peekB p.tail) then some (skipDigits p.tail.tail) else none
  else some p

/-- The optional sign skip inside the exponent part. -/
def numExpSign (p : List Nat) : List Nat :=
  if peekB p = 43 || peekB p = 45 then p.tail else p

/-- The optional exponent part of the number grammar. -/
def numExp (p : List Nat) : Option (List Nat) :=
  if peekB p = 101 || peekB p = 69 then
    if isDigitB (peekB (numExpSign p.tail)) then
      some (skipDigits (numExpSign p.tail).tail)
    else none
  else some p

/-- lept_parse_number: syntactic validation of the sign, integer, fraction
and exponent parts; on a validation failure `c->json` and `v` are untouched.
Then `v->u.n = strtod(c->json, NULL)`: the oracle `tb` tells whether that
conversion sets ERANGE with a HUGE_VAL result, in which case
NUMBER_TOO_BIG is returned before the type tag is set.  Otherwise the
value carries the bytes strtod converted and `c->json` advances past the
validated token. -/
def lept_parse_number (tb : List Nat → Bool) (l : List Nat) (v : LeptValue) :
    LeptStatus × LeptValue × List Nat :=
  match numInt (if peekB l = 45 then l.tail else l) with
  | none => (.LEPT_PARSE_INVALID_VALUE, v, l)
  | some p1 =>
    match numFrac p1 with
    | none => (.LEPT_PARSE_INVALID_VALUE, v, l)
    | some p2 =>
      match numExp p2 with
      | none => (.LEPT_PARSE_INVALID_VALUE, v, l)
      | some p3 =>
        if tb l then (.LEPT_PARSE_NUMBER_TOO_BIG, v, l)
        else (.LEPT_PARSE_OK, .vnumber l, p3)

/-- One hex digit, as in lept_parse_hex4's three comparison chains. -/
def hexDigit (b : Nat) : Option Nat :=
  if 48 ≤ b && b ≤ 57 then some (b - 48)
  else if 65 ≤ b && b ≤ 70 then some (b - 55)
  else if 97 ≤ b && b ≤ 102 then some (b - 87)
  else none

/-- lept_parse_hex4: read exactly 4 hex digits (fewer than 4 bytes left
means the loop reads the terminator, which is not a hex digit). -/
def lept_parse_hex4 : List Nat → Option (Nat × List Nat)
  | a :: b :: c :: d :: r =>
    match hexDigit a, hexDigit b, hexDigit c, hexDigit d with
    | some x1, some x2, some x3, some x4 =>
      some ((((x1 <<< 4 ||| x2) <<< 4 ||| x3) <<< 4 ||| x4), r)
    | _, _, _, _ => none
  | _ => none

/-- lept_encode_utf8: the bytes PUTC pushes for code point `u`
(the C code asserts `u <= 0x10FFFF` in the last branch). -/
def lept_encode_utf8 (u : Nat) : List Nat :=
  if u ≤ 0x7F then [u &&& 0xFF]
  else if u ≤ 0x7FF then
    [0xC0 ||| ((u >>> 6) &&& 0xFF), 0x80 ||| (u &&& 0x3F)]
  else if u ≤ 0xFFFF then
    [0xE0 ||| ((u >>> 12) &&& 0xFF), 0x80 ||| ((u >>> 6) &&& 0x3F),
     0x80 ||| (u &&& 0x3F)]
  else
    [0xF0 ||| ((u >>> 18) &&& 0xFF), 0x80 ||| ((u >>> 12) &&& 0x3F),
     0x80 ||| ((u >>> 6) &&& 0x3F), 0x80 ||| (u &&& 0x3F)]

/-- PUTC each byte of a list in order onto the scratch buffer. -/
def pushBytes (st : Stack) (bs : List Nat) : Stack :=
  bs.foldl (fun s b => StackItem.byte b :: s) st

/-- The byte stored in a scratch-buffer item (a staged value item would be
reinterpreted memory in C; it never occurs below a string's mark). -/
def itemByte : StackItem → Nat
  | .byte b => b
  | .val _ => 0

/-- The value stored in a scratch-buffer item (a character item would be
reinterpreted memory in C; it never occurs among an array's staged items). -/
def itemVal : StackItem → LeptValue
  | .val v => v
  | .byte _ => .vnull

/-- The scan loop of lept_parse_string.  `p` is the read cursor, `j0` is
`c->json` (just after the opening quote, where the C code leaves it on
every error), `st0` is the buffer at the string's start mark (`head`), `st`
the current buffer.  STRING_ERROR restores the buffer to the mark.  Driven
by fuel for structural recursion; `lept_parse_string` supplies enough
(`lept_parse_string_loop_sufficient`). -/
def lept_parse_string_loop :
    Nat → List Nat → List Nat → Stack → Stack → LeptValue → Option POut
  | 0, _, _, _, _, _ => none
  | f + 1, p, j0, st0, st, v =>
    if peekB p = 34 then
      some ⟨.LEPT_PARSE_OK,
            lept_set_string v
              (((st.take (st.length - st0.length)).reverse).map itemByte),
            p.tail, st.drop (st.length - st0.length)⟩
    else if peekB p = 92 then
      if peekB p.tail = 34 then
        lept_parse_string_loop f p.tail.tail j0 st0 (.byte 34 :: st) v
      else if peekB p.tail = 92 then
        lept_parse_string_loop f p.tail.tail j0 st0 (.byte 92 :: st) v
      else if peekB p.tail = 47 then
        lept_parse_string_loop f p.tail.tail j0 st0 (.byte 47 :: st) v
      else if peekB p.tail = 98 then
        lept_parse_string_loop f p.tail.tail j0 st0 (.byte 8 :: st) v
      else if peekB p.tail = 102 then
        lept_parse_string_loop f p.tail.tail j0 st0 (.byte 12 :: st) v
      else if peekB p.tail = 110 then
        lept_parse_string_loop f p.tail.tail j0 st0 (.byte 10 :: st) v
      else if peekB p.tail = 114 then
        lept_parse_string_loop f p.tail.tail j0 st0 (.byte 13 :: st) v
      else if peekB p.tail = 116 then
        lept_parse_string_loop f p.tail.tail j0 st0 (.byte 9 :: st) v
      else if peekB p.tail = 117 then
        match lept_parse_hex4 p.tail.tail with
        | none => some ⟨.LEPT_PARSE_INVALID_UNICODE_HEX, v, j0, st0⟩
        | some (u, r3) =>
          if 0xD800 ≤ u && u ≤ 0xDBFF then
            if peekB r3 ≠ 92 then
              some ⟨.LEPT_PARSE_INVALID_UNICODE_SURROGATE, v, j0, st0⟩
            else if peekB r3.tail ≠ 117 then
              some ⟨.LEPT_PARSE_INVALID_UNICODE_SURROGATE, v, j0, st0⟩
            else
              match lept_parse_hex4 r3.tail.tail with
              | none => some ⟨.LEPT_PARSE_INVALID_UNICODE_HEX, v, j0, st0⟩
              | some (u2, r5) =>
                if u2 < 0xDC00 || 0xDFFF < u2 then
                  some ⟨.LEPT_PARSE_INVALID_UNICODE_SURROGATE, v, j0, st0⟩
                else
                  lept_parse_string_loop f r5 j0 st0
                    (pushBytes st
                      (lept_encode_utf8 ((((u - 0xD800) <<< 10) ||| (u2 - 0xDC00)) + 0x10000)))
                    v
          else
            lept_parse_string_loop f r3 j0 st0 (pushBytes st (lept_encode_utf8 u)) v
      else some ⟨.LEPT_PARSE_INVALID_STRING_ESCAPE, v, j0, st0⟩
    else if peekB p = 0 then some ⟨.LEPT_PARSE_MISS_QUOTATION_MARK, v, j0, st0⟩
    else if peekB p < 0x20 then
      some ⟨.LEPT_PARSE_INVALID_STRING_CHAR, v, j0, st0⟩
    else lept_parse_string_loop f p.tail j0 st0 (.byte (peekB p) :: st) v

/-- lept_parse_string: EXPECT consumes the (asserted) opening quote, then
the scan loop runs with the mark `head = c->top`; the loop consumes at
least one byte per iteration, so `r.length + 1` fuel never runs out. -/
def lept_parse_string (l : List Nat) (st : Stack) (v : LeptValue) :
    Option POut :=
  if peekB l = 34 then
    lept_parse_string_loop (l.tail.length + 1) l.tail l.tail st st v
  else some ⟨.LEPT_PARSE_INVALID_VALUE, v, l, st⟩

/-- Repack a sub-parser result that does not touch the scratch buffer. -/
def withStack (t : LeptStatus × LeptValue × List Nat) (st : Stack) : POut :=
  ⟨t.1, t.2.1, t.2.2, st⟩

/-- The element loop of lept_parse_array, generic in the element parser
`pv` (instantiated with `lept_parse_value` at one smaller fuel): parse an
element into a fresh null-initialised value, stage it on the buffer, then
require a comma (continue) or a closing bracket (materialise); on any break
the staged elements are popped and lept_free'd (freeing discarded staged
copies, which does not affect the result). -/
def lept_parse_array_loop (pv : List Nat → Stack → LeptValue → Option POut) :
    Nat → List Nat → Stack → LeptValue → Nat → Option POut
  | 0, _, _, _, _ => none
  | f + 1, l, st, v, size =>
    match pv l st .vnull with
    | none => none
    | some o =>
      if o.ret = .LEPT_PARSE_OK then
        if peekB (lept_parse_whitespace o.json) = 44 then
          lept_parse_array_loop pv f
            (lept_parse_whitespace (lept_parse_whitespace o.json).tail)
            (StackItem.val o.v :: o.stack) v (size + 1)
        else if peekB (lept_parse_whitespace o.json) = 93 then
          some ⟨.LEPT_PARSE_OK,
                .varray (size + 1)
                  (some ((((StackItem.val o.v :: o.stack).take (size + 1)).reverse).map itemVal)),
                (lept_parse_whitespace o.json).tail,
                (StackItem.val o.v :: o.stack).drop (size + 1)⟩
        else
          some ⟨.LEPT_PARSE_MISS_COMMA_OR_SQUARE_BRACKET, v,
                lept_parse_whitespace o.json,
                (StackItem.val o.v :: o.stack).drop (size + 1)⟩
      else
        some ⟨o.ret, v, o.json, o.stack.drop size⟩

/-- lept_parse_array: EXPECT consumes the (asserted) opening bracket and
whitespace is skipped; an immediate closing bracket yields the empty array
with a NULL element pointer, otherwise the element loop runs. -/
def lept_parse_array (pv : List Nat → Stack → LeptValue → Option POut)
    (loopFuel : Nat) (l : List Nat) (st : Stack) (v : LeptValue) :
    Option POut :=
  if peekB l = 91 then
    if peekB (lept_parse_whitespace l.tail) = 93 then
      some ⟨.LEPT_PARSE_OK, .varray 0 none, (lept_parse_whitespace l.tail).tail,
            st⟩
    else lept_parse_array_loop pv loopFuel (lept_parse_whitespace l.tail) st v 0
  else some ⟨.LEPT_PARSE_INVALID_VALUE, v, l, st⟩

/-- lept_parse_value: dispatch on the first character.  The fuel decreases
on the path into array elements; `3 * length + 1` fuel always suffices
(`lept_parse_value_sufficient`). -/
def lept_parse_value (tb : List Nat → Bool) :
    Nat → List Nat → Stack → LeptValue → Option POut
  | 0, _, _, _ => none
  | f + 1, l, st, v =>
    if peekB l = 110 then
      some (withStack (lept_parse_literal l v [110, 117, 108, 108] .LEPT_NULL) st)
    else if peekB l = 116 then
      some (withStack (lept_parse_literal l v [116, 114, 117, 101] .LEPT_TRUE) st)
    else if peekB l = 102 then
      some (withStack (lept_parse_literal l v [102, 97, 108, 115, 101] .LEPT_FALSE) st)
    else if peekB l = 91 then lept_parse_array (lept_parse_value tb f) f l st v
    else if peekB l = 34 then lept_parse_string l st v
    else if peekB l = 0 then some ⟨.LEPT_PARSE_EXPECT_VALUE, v, l, st⟩
    else some (withStack (lept_parse_number tb l v) st)

/-- lept_parse, keeping all observable state: the context starts with an
empty buffer and a null-initialised value; whitespace is skipped, one value
parsed, then trailing whitespace skipped and the remaining input must be
the terminator, else the root type is forced to LEPT_NULL and
ROOT_NOT_SINGULAR returned.  The fuel `3 * length + 3` never runs out
(`lept_parse_run_some`), so the `none` fallback is dead code. -/
def lept_parse_run (tb : List Nat → Bool) (json : List Nat) : POut :=
  match lept_parse_value tb (3 * json.length + 3)
      (lept_parse_whitespace json) [] .vnull with
  | none => ⟨.LEPT_PARSE_INVALID_VALUE, .vnull, json, []⟩
  | some o =>
    if o.ret = .LEPT_PARSE_OK then
      if peekB (lept_parse_whitespace o.json) ≠ 0 then
        ⟨.LEPT_PARSE_ROOT_NOT_SINGULAR, .vnull, lept_parse_whitespace o.json,
         o.stack⟩
      else ⟨.LEPT_PARSE_OK, o.v, lept_parse_whitespace o.json, o.stack⟩
    else o

/-- lept_parse as the caller sees it: the returned status and the value
left in `*v`. -/
def lept_parse (tb : List Nat → Bool) (json : List Nat) :
    LeptStatus × LeptValue :=
  ((lept_parse_run tb json).ret, (lept_parse_run tb json).v)

/-- Oracle stating that strtod never overflows to HUGE_VAL with ERANGE:
correct for every concrete input used below, whose number tokens all have
magnitude far below the double range limit. -/
def strtodNoOverflow : List Nat → Bool := fun _ => false

/-- The bytes of an ASCII Lean string literal, for readable test inputs. -/
def jbytes (s : String) : List Nat := s.toList.map Char.toNat

/-! ## Length and preservation lemmas for the leaf parsers -/

theorem lept_parse_whitespace_length (l : List Nat) :
    (lept_parse_whitespace l).length ≤ l.length := by
  induction l with
  | nil => simp [lept_parse_whitespace]
  | cons b r ih =>
    unfold lept_parse_whitespace
    split
    · exact le_trans ih (by simp)
    · simp

theorem skipDigits_length (l : List Nat) : (skipDigits l).length ≤ l.length := by
  induction l with
  | nil => simp [skipDigits]
  | cons b r ih =>
    unfold skipDigits
    split
    · exact le_trans ih (by simp)
    · simp

theorem litRest_length :
    ∀ (xs l r : List Nat), litRest xs l = some r → r.length ≤ l.length := by
  intro xs
  induction xs with
  | nil =>
    intro l r h
    unfold litRest at h
    injection h with h
    subst h
    omega
  | cons x xs ih =>
    intro l r h
    unfold litRest at h
    split at h
    · have h2 := ih l.tail r h
      have h3 := List.length_tail l
      omega
    · exact absurd h (by simp)

theorem lept_parse_literal_spec (l : List Nat) (v : LeptValue) (lit : List Nat)
    (t : LeptType) :
    (lept_parse_literal l v lit t).2.2.length ≤ l.length ∧
    ((lept_parse_literal l v lit t).1 = .LEPT_PARSE_OK →
      (lept_parse_literal l v lit t).2.2.length < l.length) ∧
    ((lept_parse_literal l v lit t).1 ≠ .LEPT_PARSE_OK →
      (lept_parse_literal l v lit t).2.1 = v) := by
  unfold lept_parse_literal
  cases l with
  | nil => simp
  | cons a r =>
    cases h : litRest lit.tail r with
    | none => simp [h]
    | some r2 =>
      have h2 := litRest_length _ _ _ h
      simp [h]
      omega

theorem numInt_length (p q : List Nat) (h : numInt p = some q) :
    q.length < p.length := by
  unfold numInt at h
  split at h
  · rename_i h48
    injection h with h
    subst h
    have hp : 0 < p.length := by
      cases p with
      | nil => simp [peekB] at h48
      | cons a r => simp
    have h2 := List.length_tail p
    omega
  · split at h
    · rename_i h48 hd
      injection h with h
      subst h
      have hp : 0 < p.length := by
        cases p with
        | nil => simp [peekB, isDigit1To9B] at hd
        | cons a r => simp
      have h2 := List.length_tail p
      have h3 := skipDigits_length p.tail
      omega
    · exact absurd h (by simp)

theorem numFrac_length (p q : List Nat) (h : numFrac p = some q) :
    q.length ≤ p.length := by
  unfold numFrac at h
  split at h
  · split at h
    · injection h with h
      subst h
      have h3 := skipDigits_length p.tail.tail
      have h4 := List.length_tail p
      have h5 := List.length_tail p.tail
      omega
    · exact absurd h (by simp)
  · injection h with h
    subst h
    omega

theorem numExpSign_tail_length (p : List Nat) :
    (numExpSign p).tail.length ≤ p.length := by
  unfold numExpSign
  split
  · have h1 := List.length_tail p
    have h2 := List.length_tail p.tail
    omega
  · have h1 := List.length_tail p
    omega

theorem numExp_length (p q : List Nat) (h : numExp p = some q) :
    q.length ≤ p.length := by
  unfold numExp at h
  split at h
  · split at h
    · injection h with h
      subst h
      have h3 := skipDigits_length (numExpSign p.tail).tail
      have h4 := numExpSign_tail_length p.tail
      have h5 := List.length_tail p
      omega
    · exact absurd h (by simp)
  · injection h with h
    subst h
    omega

theorem lept_parse_number_spec (tb : List Nat → Bool) (l : List Nat)
    (v : LeptValue) :
    (lept_parse_number tb l v).2.2.length ≤ l.length ∧
    ((lept_parse_number tb l v).1 = .LEPT_PARSE_OK →
      (lept_parse_number tb l v).2.2.length < l.length) ∧
    ((lept_parse_number tb l v).1 ≠ .LEPT_PARSE_OK →
      (lept_parse_number tb l v).2.1 = v ∧ (lept_parse_number tb l v).2.2 = l) ∧
    ((lept_parse_number tb l v).1 = .LEPT_PARSE_OK →
      (lept_parse_number tb l v).2.1 = .vnumber l) := by
  unfold lept_parse_number
  cases hInt : numInt (if peekB l = 45 then l.tail else l) with
  | none => simp [hInt]
  | some p1 =>
    have h1 : p1.length < l.length := by
      have ha := numInt_length _ _ hInt
      have hb : (if peekB l = 45 then l.tail else l).length ≤ l.length := by
        have hc := List.length_tail l
        split <;> omega
      omega
    cases hFrac : numFrac p1 with
    | none => simp [hInt, hFrac]
    | some p2 =>
      have h2 := numFrac_length _ _ hFrac
      cases hExp : numExp p2 with
      | none => simp [hInt, hFrac, hExp]
      | some p3 =>
        have h3 := numExp_length _ _ hExp
        by_cases htb : tb l
        · simp [hInt, hFrac, hExp, htb]
        · simp [hInt, hFrac, hExp, htb]
          omega

theorem lept_parse_hex4_length :
    ∀ (p : List Nat) (u : Nat) (r : List Nat),
      lept_parse_hex4 p = some (u, r) → r.length + 4 = p.length := by
  intro p u r h
  unfold lept_parse_hex4 at h
  split at h
  · split at h
    · simp only [Option.some.injEq, Prod.mk.injEq] at h
      obtain ⟨-, h2⟩ := h
      subst h2
      simp
    · exact absurd h (by simp)
  · exact absurd h (by simp)

/-! ## The string scan loop: rollback, result shape, fuel sufficiency -/

theorem pushBytes_cons (st : Stack) (b : Nat) (bs : List Nat) :
    pushBytes st (b :: bs) = pushBytes (StackItem.byte b :: st) bs := rfl

theorem pushBytes_suffix (bs : List Nat) : ∀ st : Stack, st <:+ pushBytes st bs := by
  induction bs with
  | nil => intro st; exact List.suffix_refl st
  | cons b bs ih =>
    intro st
    rw [pushBytes_cons]
    exact (List.suffix_cons (StackItem.byte b) st).trans (ih _)

theorem suffix_drop_eq (st0 st : Stack) (h : st0 <:+ st) :
    st.drop (st.length - st0.length) = st0 := by
  obtain ⟨pre, rfl⟩ := h
  have h2 : (pre ++ st0).length - st0.length = pre.length := by simp
  rw [h2, List.drop_left]

/-- Weakening of the loop invariant along the consumed input length. -/
theorem strLoopPost_mono {o : POut} {st0 : Stack} {j0 : List Nat}
    {v : LeptValue} {n m : Nat}
    (hres : (o.ret = .LEPT_PARSE_OK → o.stack = st0 ∧ o.json.length < n ∧
        ∃ s, o.v = .vstring s) ∧
      (o.ret ≠ .LEPT_PARSE_OK → o.stack = st0 ∧ o.json = j0 ∧ o.v = v))
    (hmn : n ≤ m) :
    (o.ret = .LEPT_PARSE_OK → o.stack = st0 ∧ o.json.length < m ∧
      ∃ s, o.v = .vstring s) ∧
    (o.ret ≠ .LEPT_PARSE_OK → o.stack = st0 ∧ o.json = j0 ∧ o.v = v) := by
  refine ⟨fun hok => ?_, hres.2⟩
  obtain ⟨h1, h2, h3⟩ := hres.1 hok
  exact ⟨h1, lt_of_lt_of_le h2 hmn, h3⟩

/-- Invariant of the string scan loop: every error path restores the buffer
to the mark `st0`, keeps `c->json` at `j0` and does not touch `v`; the
success path pops the buffer back to the mark, consumes at least the
closing quote, and produces a string value. -/
theorem lept_parse_string_loop_inv
    (j0 : List Nat) (st0 : Stack) (v : LeptValue) :
    ∀ (f : Nat) (p : List Nat) (st : Stack) (o : POut),
      lept_parse_string_loop f p j0 st0 st v = some o → st0 <:+ st →
      (o.ret = .LEPT_PARSE_OK → o.stack = st0 ∧ o.json.length < p.length ∧
        ∃ s, o.v = .vstring s) ∧
      (o.ret ≠ .LEPT_PARSE_OK → o.stack = st0 ∧ o.json = j0 ∧ o.v = v) := by
  intro f
  induction f with
  | zero =>
    intro p st o h
    exact absurd h (by simp [lept_parse_string_loop])
  | succ f ih =>
    intro p st o h hsuf
    have htl : p.tail.length = p.length - 1 := List.length_tail p
    have htl2 : p.tail.tail.length = p.tail.length - 1 := List.length_tail p.tail
    rw [lept_parse_string_loop] at h
    by_cases h34 : peekB p = 34
    · rw [if_pos h34] at h
      injection h with h
      subst h
      have hp : p ≠ [] := by
        intro he; rw [he] at h34; simp [peekB] at h34
      have hplen : 0 < p.length := List.length_pos.mpr hp
      exact ⟨fun _ => ⟨suffix_drop_eq _ _ hsuf, by simp; omega, _, rfl⟩,
             fun hne => absurd rfl hne⟩
    · rw [if_neg h34] at h
      by_cases h92 : peekB p = 92
      · rw [if_pos h92] at h
        have hp : p ≠ [] := by
          intro he; rw [he] at h92; simp [peekB] at h92
        have hplen : 0 < p.length := List.length_pos.mpr hp
        by_cases he1 : peekB p.tail = 34
        · rw [if_pos he1] at h
          exact strLoopPost_mono (ih _ _ _ h (hsuf.trans (List.suffix_cons _ _))) (by omega)
        · rw [if_neg he1] at h
          by_cases he2 : peekB p.tail = 92
          · rw [if_pos he2] at h
            exact strLoopPost_mono (ih _ _ _ h (hsuf.trans (List.suffix_cons _ _))) (by omega)
          · rw [if_neg he2] at h
            by_cases he3 : peekB p.tail = 47
            · rw [if_pos he3] at h
              exact strLoopPost_mono (ih _ _ _ h (hsuf.trans (List.suffix_cons _ _))) (by omega)
            · rw [if_neg he3] at h
              by_cases he4 : peekB p.tail = 98
              · rw [if_pos he4] at h
                exact strLoopPost_mono (ih _ _ _ h (hsuf.trans (List.suffix_cons _ _))) (by omega)
              · rw [if_neg he4] at h
                by_cases he5 : peekB p.tail = 102
                · rw [if_pos he5] at h
                  exact strLoopPost_mono (ih _ _ _ h (hsuf.trans (List.suffix_cons _ _))) (by omega)
                · rw [if_neg he5] at h
                  by_cases he6 : peekB p.tail = 110
                  · rw [if_pos he6] at h
                    exact strLoopPost_mono (ih _ _ _ h (hsuf.trans (List.suffix_cons _ _))) (by omega)
                  · rw [if_neg he6] at h
                    by_cases he7 : peekB p.tail = 114
                    · rw [if_pos he7] at h
                      exact strLoopPost_mono (ih _ _ _ h (hsuf.trans (List.suffix_cons _ _))) (by omega)
                    · rw [if_neg he7] at h
                      by_cases he8 : peekB p.tail = 116
                      · rw [if_pos he8] at h
                        exact strLoopPost_mono (ih _ _ _ h (hsuf.trans (List.suffix_cons _ _))) (by omega)
                      · rw [if_neg he8] at h
                        by_cases he9 : peekB p.tail = 117
                        · rw [if_pos he9] at h
                          cases hhex : lept_parse_hex4 p.tail.tail with
                          | none =>
                            rw [hhex] at h
                            dsimp only at h
                            injection h with h
                            subst h
                            simp
                          | some ur =>
                            obtain ⟨u, r3⟩ := ur
                            have hr3 := lept_parse_hex4_length _ _ _ hhex
                            have htr3 : r3.tail.length = r3.length - 1 := List.length_tail r3
                            have htr32 : r3.tail.tail.length = r3.tail.length - 1 := List.length_tail r3.tail
                            rw [hhex] at h
                            dsimp only at h
                            by_cases hsur : (decide (0xD800 ≤ u) && decide (u ≤ 0xDBFF)) = true
                            · rw [if_pos hsur] at h
                              by_cases hbk : peekB r3 ≠ 92
                              · rw [if_pos hbk] at h
                                injection h with h
                                subst h
                                simp
                              · rw [if_neg hbk] at h
                                by_cases hu2 : peekB r3.tail ≠ 117
                                · rw [if_pos hu2] at h
                                  injection h with h
                                  subst h
                                  simp
                                · rw [if_neg hu2] at h
                                  cases hhex2 : lept_parse_hex4 r3.tail.tail with
                                  | none =>
                                    rw [hhex2] at h
                                    dsimp only at h
                                    injection h with h
                                    subst h
                                    simp
                                  | some ur2 =>
                                    obtain ⟨u2, r5⟩ := ur2
                                    have hr5 := lept_parse_hex4_length _ _ _ hhex2
                                    rw [hhex2] at h
                                    dsimp only at h
                                    by_cases hlo : (decide (u2 < 0xDC00) || decide (0xDFFF < u2)) = true
                                    · rw [if_pos hlo] at h
                                      injection h with h
                                      subst h
                                      simp
                                    · rw [if_neg hlo] at h
                                      exact strLoopPost_mono
                                        (ih _ _ _ h (hsuf.trans (pushBytes_suffix _ _)))
                                        (by omega)
                            · rw [if_neg hsur] at h
                              exact strLoopPost_mono
                                (ih _ _ _ h (hsuf.trans (pushBytes_suffix _ _)))
                                (by omega)
                        · rw [if_neg he9] at h
                          injection h with h
                          subst h
                          simp
      · rw [if_neg h92] at h
        by_cases h0 : peekB p = 0
        · rw [if_pos h0] at h
          injection h with h
          subst h
          simp
        · rw [if_neg h0] at h
          have hp : p ≠ [] := by
            intro he; rw [he] at h0; simp [peekB] at h0
          have hplen : 0 < p.length := List.length_pos.mpr hp
          by_cases hctl : peekB p < 0x20
          · rw [if_pos hctl] at h
            injection h with h
            subst h
            simp
          · rw [if_neg hctl] at h
            exact strLoopPost_mono (ih _ _ _ h (hsuf.trans (List.suffix_cons _ _))) (by omega)

/-- The string scan loop consumes at least one byte per iteration, so
fuel `p.length + 1` can never run out. -/
theorem lept_parse_string_loop_sufficient
    (j0 : List Nat) (st0 : Stack) (v : LeptValue) :
    ∀ (f : Nat) (p : List Nat) (st : Stack), p.length + 1 ≤ f →
      lept_parse_string_loop f p j0 st0 st v ≠ none := by
  intro f
  induction f with
  | zero => intro p st hf; omega
  | succ f ih =>
    intro p st hf
    have htl : p.tail.length = p.length - 1 := List.length_tail p
    have htl2 : p.tail.tail.length = p.tail.length - 1 := List.length_tail p.tail
    rw [lept_parse_string_loop]
    by_cases h34 : peekB p = 34
    · rw [if_pos h34]; simp
    · rw [if_neg h34]
      by_cases h92 : peekB p = 92
      · rw [if_pos h92]
        have hp : p ≠ [] := by
          intro he; rw [he] at h92; simp [peekB] at h92
        have hplen : 0 < p.length := List.length_pos.mpr hp
        by_cases he1 : peekB p.tail = 34
        · rw [if_pos he1]; exact ih _ _ (by omega)
        · rw [if_neg he1]
          by_cases he2 : peekB p.tail = 92
          · rw [if_pos he2]; exact ih _ _ (by omega)
          · rw [if_neg he2]
            by_cases he3 : peekB p.tail = 47
            · rw [if_pos he3]; exact ih _ _ (by omega)
            · rw [if_neg he3]
              by_cases he4 : peekB p.tail = 98
              · rw [if_pos he4]; exact ih _ _ (by omega)
              · rw [if_neg he4]
                by_cases he5 : peekB p.tail = 102
                · rw [if_pos he5]; exact ih _ _ (by omega)
                · rw [if_neg he5]
                  by_cases he6 : peekB p.tail = 110
                  · rw [if_pos he6]; exact ih _ _ (by omega)
                  · rw [if_neg he6]
                    by_cases he7 : peekB p.tail = 114
                    · rw [if_pos he7]; exact ih _ _ (by omega)
                    · rw [if_neg he7]
                      by_cases he8 : peekB p.tail = 116
                      · rw [if_pos he8]; exact ih _ _ (by omega)
                      · rw [if_neg he8]
                        by_cases he9 : peekB p.tail = 117
                        · rw [if_pos he9]
                          cases hhex : lept_parse_hex4 p.tail.tail with
                          | none => simp
                          | some ur =>
                            obtain ⟨u, r3⟩ := ur
                            have hr3 := lept_parse_hex4_length _ _ _ hhex
                            have htr3 : r3.tail.length = r3.length - 1 :=
                              List.length_tail r3
                            have htr32 : r3.tail.tail.length = r3.tail.length - 1 :=
                              List.length_tail r3.tail
                            dsimp only
                            by_cases hsur : (decide (0xD800 ≤ u) && decide (u ≤ 0xDBFF)) = true
                            · rw [if_pos hsur]
                              by_cases hbk : peekB r3 ≠ 92
                              · rw [if_pos hbk]; simp
                              · rw [if_neg hbk]
                                by_cases hu2 : peekB r3.tail ≠ 117
                                · rw [if_pos hu2]; simp
                                · rw [if_neg hu2]
                                  cases hhex2 : lept_parse_hex4 r3.tail.tail with
                                  | none => simp
                                  | some ur2 =>
                                    obtain ⟨u2, r5⟩ := ur2
                                    have hr5 := lept_parse_hex4_length _ _ _ hhex2
                                    dsimp only
                                    by_cases hlo : (decide (u2 < 0xDC00) || decide (0xDFFF < u2)) = true
                                    · rw [if_pos hlo]; simp
                                    · rw [if_neg hlo]
                                      exact ih _ _ (by omega)
                            · rw [if_neg hsur]
                              exact ih _ _ (by omega)
                        · rw [if_neg he9]; simp
      · rw [if_neg h92]
        by_cases h0 : peekB p = 0
        · rw [if_pos h0]; simp
        · rw [if_neg h0]
          have hp : p ≠ [] := by
            intro he; rw [he] at h0; simp [peekB] at h0
          have hplen : 0 < p.length := List.length_pos.mpr hp
          by_cases hctl : peekB p < 0x20
          · rw [if_pos hctl]; simp
          · rw [if_neg hctl]
            exact ih _ _ (by omega)

/-- lept_parse_string never runs out of loop fuel. -/
theorem lept_parse_string_total (l : List Nat) (st : Stack) (v : LeptValue) :
    lept_parse_string l st v ≠ none := by
  unfold lept_parse_string
  split
  · exact lept_parse_string_loop_sufficient _ _ _ _ _ _ (by omega)
  · simp

/-- lept_parse_string: the buffer is restored to its state at entry on
every path; `v` is untouched on errors; the cursor never moves past the
input and strictly advances on success, producing a string value. -/
theorem lept_parse_string_spec (l : List Nat) (st : Stack) (v : LeptValue) :
    ∀ o : POut, lept_parse_string l st v = some o →
      o.stack = st ∧ o.json.length ≤ l.length ∧
      (o.ret = .LEPT_PARSE_OK → o.json.length < l.length ∧
        ∃ s, o.v = .vstring s) ∧
      (o.ret ≠ .LEPT_PARSE_OK → o.v = v) := by
  intro o h
  unfold lept_parse_string at h
  split at h
  · rename_i h34
    have hp : l ≠ [] := by
      intro he; rw [he] at h34; simp [peekB] at h34
    have hplen : 0 < l.length := List.length_pos.mpr hp
    have htl : l.tail.length = l.length - 1 := List.length_tail l
    have hinv := lept_parse_string_loop_inv l.tail st v _ _ _ _ h (List.suffix_refl st)
    by_cases hok : o.ret = .LEPT_PARSE_OK
    · obtain ⟨h1, h2, h3⟩ := hinv.1 hok
      exact ⟨h1, by omega, fun _ => ⟨by omega, h3⟩, fun hne => absurd hok hne⟩
    · obtain ⟨h1, h2, h3⟩ := hinv.2 hok
      refine ⟨h1, ?_, fun hko => absurd hko hok, fun _ => h3⟩
      rw [h2]
      omega
  · injection h with h
    subst h
    simp

/-- On success, lept_parse_literal (with one of its three actual type
arguments) never yields an array value. -/
theorem lept_parse_literal_not_array (l : List Nat) (v : LeptValue)
    (lit : List Nat) (t : LeptType)
    (ht : t = .LEPT_NULL ∨ t = .LEPT_TRUE ∨ t = .LEPT_FALSE) :
    (lept_parse_literal l v lit t).1 = .LEPT_PARSE_OK →
      ∀ (n : Nat) (e : Option (List LeptValue)),
        (lept_parse_literal l v lit t).2.1 ≠ .varray n e := by
  unfold lept_parse_literal
  cases l with
  | nil => simp
  | cons a r =>
    cases h : litRest lit.tail r with
    | none => simp [h]
    | some r2 =>
      rcases ht with ht | ht | ht <;> subst ht <;> simp [h]

/-- Invariant of the array element loop, generic in the element parser:
the cursor never moves past the input, the loop pops exactly its own
staged elements, errors leave `v` untouched, and a successful close
produces an array whose stored size equals the length of the materialised
element list. -/
theorem lept_parse_array_loop_inv
    (pv : List Nat → Stack → LeptValue → Option POut)
    (Hjson : ∀ l st v o, pv l st v = some o → o.json.length ≤ l.length)
    (Hstack : ∀ l st v o, pv l st v = some o → o.stack = st) :
    ∀ (f : Nat) (l : List Nat) (st : Stack) (v : LeptValue) (size : Nat)
      (o : POut),
      lept_parse_array_loop pv f l st v size = some o → size ≤ st.length →
      o.json.length ≤ l.length ∧ o.stack = st.drop size ∧
      (o.ret = .LEPT_PARSE_OK →
        ∃ es : List LeptValue, o.v = .varray es.length (some es)) ∧
      (o.ret ≠ .LEPT_PARSE_OK → o.v = v) := by
  intro f
  induction f with
  | zero =>
    intro l st v size o h
    exact absurd h (by simp [lept_parse_array_loop])
  | succ f ih =>
    intro l st v size o h hsz
    rw [lept_parse_array_loop] at h
    cases hpv : pv l st .vnull with
    | none => rw [hpv] at h; exact absurd h (by simp)
    | some o1 =>
      rw [hpv] at h
      dsimp only at h
      have hj1 := Hjson _ _ _ _ hpv
      have hs1 := Hstack _ _ _ _ hpv
      have hw1 := lept_parse_whitespace_length o1.json
      have hwt : (lept_parse_whitespace o1.json).tail.length =
          (lept_parse_whitespace o1.json).length - 1 := List.length_tail _
      by_cases hok : o1.ret = .LEPT_PARSE_OK
      · rw [if_pos hok] at h
        by_cases hcm : peekB (lept_parse_whitespace o1.json) = 44
        · rw [if_pos hcm] at h
          have hw2 := lept_parse_whitespace_length
            (lept_parse_whitespace o1.json).tail
          have hrec := ih _ _ _ _ _ h (by rw [hs1]; simp; omega)
          rw [hs1] at hrec
          rw [List.drop_succ_cons] at hrec
          exact ⟨by omega, hrec.2.1, hrec.2.2.1, hrec.2.2.2⟩
        · rw [if_neg hcm] at h
          by_cases hbr : peekB (lept_parse_whitespace o1.json) = 93
          · rw [if_pos hbr] at h
            injection h with h
            subst h
            refine ⟨by simp; omega, by rw [hs1, List.drop_succ_cons], fun _ => ?_,
                    fun hne => absurd rfl hne⟩
            refine ⟨(((StackItem.val o1.v :: o1.stack).take (size + 1)).reverse).map itemVal, ?_⟩
            have hlen : ((((StackItem.val o1.v :: o1.stack).take (size + 1)).reverse).map itemVal).length = size + 1 := by
              simp [List.length_take]
              rw [hs1]
              omega
            rw [hlen]
          · rw [if_neg hbr] at h
            injection h with h
            subst h
            exact ⟨by simp; omega, by rw [hs1, List.drop_succ_cons], by simp,
                   fun _ => rfl⟩
      · rw [if_neg hok] at h
        injection h with h
        subst h
        exact ⟨by simp; omega, by rw [hs1], fun hk => absurd hk hok, fun _ => rfl⟩

/-- lept_parse_array built on a well-behaved element parser: cursor bounds,
buffer preservation, untouched `v` on error, and the size/element-list
agreement of the produced array value. -/
theorem lept_parse_array_spec
    (pv : List Nat → Stack → LeptValue → Option POut)
    (Hjson : ∀ l st v o, pv l st v = some o → o.json.length ≤ l.length)
    (Hstack : ∀ l st v o, pv l st v = some o → o.stack = st) :
    ∀ (fuel : Nat) (l : List Nat) (st : Stack) (v : LeptValue) (o : POut),
      lept_parse_array pv fuel l st v = some o →
      o.stack = st ∧ o.json.length ≤ l.length ∧
      (o.ret = .LEPT_PARSE_OK → o.json.length < l.length) ∧
      (o.ret ≠ .LEPT_PARSE_OK → o.v = v) ∧
      (o.ret = .LEPT_PARSE_OK → ∀ (n : Nat) (e : Option (List LeptValue)),
        o.v = .varray n e →
        (e = none → n = 0) ∧ ∀ es, e = some es → n = es.length) := by
  intro fuel l st v o h
  unfold lept_parse_array at h
  split at h
  · rename_i h91
    have hp : l ≠ [] := by
      intro he; rw [he] at h91; simp [peekB] at h91
    have hplen : 0 < l.length := List.length_pos.mpr hp
    have htl : l.tail.length = l.length - 1 := List.length_tail l
    have hw := lept_parse_whitespace_length l.tail
    have hwt : (lept_parse_whitespace l.tail).tail.length =
        (lept_parse_whitespace l.tail).length - 1 := List.length_tail _
    split at h
    · injection h with h
      subst h
      refine ⟨rfl, by simp; omega, fun _ => by simp; omega, fun hne => absurd rfl hne,
              fun _ => ?_⟩
      intro n e he
      injection he with he1 he2
      subst he1
      subst he2
      exact ⟨fun _ => rfl, fun es hes => by exact absurd hes (by simp)⟩
    · have hinv := lept_parse_array_loop_inv pv Hjson Hstack _ _ _ _ _ _ h
        (by omega)
      refine ⟨by simpa using hinv.2.1, by omega, fun _ => by omega,
              hinv.2.2.2, fun hok => ?_⟩
      obtain ⟨es, hes⟩ := hinv.2.2.1 hok
      intro n e he
      rw [hes] at he
      injection he with he1 he2
      subst he1
      subst he2
      exact ⟨fun hc => absurd hc (by simp), fun es2 hes2 => by
        injection hes2 with hes2
        rw [hes2]⟩
  · injection h with h
    subst h
    exact ⟨rfl, by simp, fun hk => by simp at hk, fun _ => rfl,
           fun hk => by simp at hk⟩

/-- Main invariant of lept_parse_value: the scratch buffer is always
restored to its entry state, the cursor never moves past the input and
strictly advances on success, errors leave `v` untouched, and a successful
array value always has its stored size equal to the length of its
materialised element list (an empty array has size 0). -/
theorem lept_parse_value_inv (tb : List Nat → Bool) :
    ∀ (f : Nat) (l : List Nat) (st : Stack) (v : LeptValue) (o : POut),
      lept_parse_value tb f l st v = some o →
      o.stack = st ∧ o.json.length ≤ l.length ∧
      (o.ret = .LEPT_PARSE_OK → o.json.length < l.length) ∧
      (o.ret ≠ .LEPT_PARSE_OK → o.v = v) ∧
      (o.ret = .LEPT_PARSE_OK → ∀ (n : Nat) (e : Option (List LeptValue)),
        o.v = .varray n e →
        (e = none → n = 0) ∧ ∀ es, e = some es → n = es.length) := by
  intro f
  induction f with
  | zero =>
    intro l st v o h
    exact absurd h (by simp [lept_parse_value])
  | succ f ih =>
    intro l st v o h
    rw [lept_parse_value] at h
    by_cases hn : peekB l = 110
    · rw [if_pos hn] at h
      injection h with h
      subst h
      dsimp only [withStack]
      have hs := lept_parse_literal_spec l v [110, 117, 108, 108] .LEPT_NULL
      have hna := lept_parse_literal_not_array l v [110, 117, 108, 108]
        .LEPT_NULL (Or.inl rfl)
      exact ⟨rfl, hs.1, hs.2.1, hs.2.2,
             fun hok n e he => absurd he (hna hok n e)⟩
    · rw [if_neg hn] at h
      by_cases ht : peekB l = 116
      · rw [if_pos ht] at h
        injection h with h
        subst h
        dsimp only [withStack]
        have hs := lept_parse_literal_spec l v [116, 114, 117, 101] .LEPT_TRUE
        have hna := lept_parse_literal_not_array l v [116, 114, 117, 101]
          .LEPT_TRUE (Or.inr (Or.inl rfl))
        exact ⟨rfl, hs.1, hs.2.1, hs.2.2,
               fun hok n e he => absurd he (hna hok n e)⟩
      · rw [if_neg ht] at h
        by_cases hfa : peekB l = 102
        · rw [if_pos hfa] at h
          injection h with h
          subst h
          dsimp only [withStack]
          have hs := lept_parse_literal_spec l v [102, 97, 108, 115, 101]
            .LEPT_FALSE
          have hna := lept_parse_literal_not_array l v [102, 97, 108, 115, 101]
            .LEPT_FALSE (Or.inr (Or.inr rfl))
          exact ⟨rfl, hs.1, hs.2.1, hs.2.2,
                 fun hok n e he => absurd he (hna hok n e)⟩
        · rw [if_neg hfa] at h
          by_cases h91 : peekB l = 91
          · rw [if_pos h91] at h
            exact lept_parse_array_spec (lept_parse_value tb f)
              (fun l2 st2 v2 o2 h2 => (ih l2 st2 v2 o2 h2).2.1)
              (fun l2 st2 v2 o2 h2 => (ih l2 st2 v2 o2 h2).1)
              f l st v o h
          · rw [if_neg h91] at h
            by_cases h34 : peekB l = 34
            · rw [if_pos h34] at h
              have hs := lept_parse_string_spec l st v o h
              refine ⟨hs.1, hs.2.1, fun hok => (hs.2.2.1 hok).1, hs.2.2.2,
                      fun hok n e he => ?_⟩
              obtain ⟨s, hv⟩ := (hs.2.2.1 hok).2
              rw [hv] at he
              exact absurd he (by simp)
            · rw [if_neg h34] at h
              by_cases h0 : peekB l = 0
              · rw [if_pos h0] at h
                injection h with h
                subst h
                exact ⟨rfl, by simp, fun hk => by simp at hk, fun _ => rfl,
                       fun hk => by simp at hk⟩
              · rw [if_neg h0] at h
                injection h with h
                subst h
                dsimp only [withStack]
                have hs := lept_parse_number_spec tb l v
                refine ⟨rfl, hs.1, hs.2.1, fun hne => (hs.2.2.1 hne).1,
                        fun hok n e he => ?_⟩
                rw [hs.2.2.2 hok] at he
                exact absurd he (by simp)

/-- The array element loop runs out of neither fuel nor elements when its
fuel exceeds the input length, given a total, cursor-bounded element
parser. -/
theorem lept_parse_array_loop_sufficient
    (pv : List Nat → Stack → LeptValue → Option POut) (L : Nat)
    (Hsome : ∀ l st v, l.length ≤ L → pv l st v ≠ none)
    (Hjson : ∀ l st v o, pv l st v = some o → o.json.length ≤ l.length)
    (Hcons : ∀ l st v o, pv l st v = some o → o.ret = .LEPT_PARSE_OK →
      o.json.length < l.length) :
    ∀ (f : Nat) (l : List Nat) (st : Stack) (v : LeptValue) (size : Nat),
      l.length + 1 ≤ f → l.length ≤ L →
      lept_parse_array_loop pv f l st v size ≠ none := by
  intro f
  induction f with
  | zero => intro l st v size hf; omega
  | succ f ih =>
    intro l st v size hf hL
    rw [lept_parse_array_loop]
    cases hpv : pv l st .vnull with
    | none => exact absurd hpv (Hsome _ _ _ (by omega))
    | some o1 =>
      dsimp only
      have hj1 := Hjson _ _ _ _ hpv
      by_cases hok : o1.ret = .LEPT_PARSE_OK
      · rw [if_pos hok]
        have hcons := Hcons _ _ _ _ hpv hok
        by_cases hcm : peekB (lept_parse_whitespace o1.json) = 44
        · rw [if_pos hcm]
          have hw1 := lept_parse_whitespace_length o1.json
          have hwt : (lept_parse_whitespace o1.json).tail.length =
              (lept_parse_whitespace o1.json).length - 1 := List.length_tail _
          have hw2 := lept_parse_whitespace_length
            (lept_parse_whitespace o1.json).tail
          exact ih _ _ _ _ (by omega) (by omega)
        · rw [if_neg hcm]
          by_cases hbr : peekB (lept_parse_whitespace o1.json) = 93
          · rw [if_pos hbr]; simp
          · rw [if_neg hbr]; simp
      · rw [if_neg hok]; simp

/-- lept_parse_value never runs out of fuel when given more than three
times the input length. -/
theorem lept_parse_value_sufficient (tb : List Nat → Bool) :
    ∀ (f : Nat) (l : List Nat) (st : Stack) (v : LeptValue),
      3 * l.length + 1 ≤ f → lept_parse_value tb f l st v ≠ none := by
  intro f
  induction f with
  | zero => intro l st v hf; omega
  | succ f ih =>
    intro l st v hf
    rw [lept_parse_value]
    by_cases hn : peekB l = 110
    · rw [if_pos hn]; simp
    · rw [if_neg hn]
      by_cases ht : peekB l = 116
      · rw [if_pos ht]; simp
      · rw [if_neg ht]
        by_cases hfa : peekB l = 102
        · rw [if_pos hfa]; simp
        · rw [if_neg hfa]
          by_cases h91 : peekB l = 91
          · rw [if_pos h91]
            unfold lept_parse_array
            rw [if_pos h91]
            have hp : l ≠ [] := by
              intro he; rw [he] at h91; simp [peekB] at h91
            have hplen : 0 < l.length := List.length_pos.mpr hp
            have htl : l.tail.length = l.length - 1 := List.length_tail l
            have hw := lept_parse_whitespace_length l.tail
            by_cases hbr : peekB (lept_parse_whitespace l.tail) = 93
            · rw [if_pos hbr]; simp
            · rw [if_neg hbr]
              exact lept_parse_array_loop_sufficient (lept_parse_value tb f)
                ((lept_parse_whitespace l.tail).length)
                (fun l2 st2 v2 hl2 => ih l2 st2 v2 (by omega))
                (fun l2 st2 v2 o2 h2 =>
                  (lept_parse_value_inv tb f l2 st2 v2 o2 h2).2.1)
                (fun l2 st2 v2 o2 h2 =>
                  (lept_parse_value_inv tb f l2 st2 v2 o2 h2).2.2.1)
                f _ st v 0 (by omega) (le_refl _)
          · rw [if_neg h91]
            by_cases h34 : peekB l = 34
            · rw [if_pos h34]
              exact lept_parse_string_total l st v
            · rw [if_neg h34]
              by_cases h0 : peekB l = 0
              · rw [if_pos h0]; simp
              · rw [if_neg h0]; simp

/-! ## Fuel for the driver, and helpers for the Unicode claims -/

/-- The fuel supplied by lept_parse_run never runs out. -/
theorem lept_parse_run_some (tb : List Nat → Bool) (json : List Nat) :
    lept_parse_value tb (3 * json.length + 3) (lept_parse_whitespace json) []
      .vnull ≠ none := by
  have hw := lept_parse_whitespace_length json
  exact lept_parse_value_sufficient tb _ _ _ _ (by omega)

/-- Disjoint bit ranges: a left shift or-ed with a small number is a sum. -/
theorem shiftLeft_lor_eq (x y k : Nat) (hy : y < 2 ^ k) :
    x <<< k ||| y = 2 ^ k * x + y := by
  rw [Nat.shiftLeft_eq, Nat.mul_comm, ← Nat.mul_add_lt_is_or hy]

/-- A constant that is a shifted value or-ed with a small number is a sum. -/
theorem lor_const_eq_add (c k x w : Nat) (hc : c = x <<< k) (hw : w < 2 ^ k) :
    c ||| w = c + w := by
  subst hc
  rw [shiftLeft_lor_eq _ _ _ hw, Nat.shiftLeft_eq, Nat.mul_comm]

/-- Second definition for comparison, following the spec's words: the
standard UTF-8 boundary table (one byte up to 0x7F, two up to 0x7FF, three
up to 0xFFFF, four up to 0x10FFFF), with the payload bits expressed in
plain arithmetic. -/
def utf8_spec (cp : Nat) : List Nat :=
  if cp ≤ 0x7F then [cp]
  else if cp ≤ 0x7FF then [0xC0 + cp / 64, 0x80 + cp % 64]
  else if cp ≤ 0xFFFF then
    [0xE0 + cp / 4096, 0x80 + cp / 64 % 64, 0x80 + cp % 64]
  else
    [0xF0 + cp / 262144, 0x80 + cp / 4096 % 64, 0x80 + cp / 64 % 64,
     0x80 + cp % 64]

/-- The code's UTF-8 encoder agrees with the spec's boundary table on the
whole encodable range. -/
theorem lept_encode_utf8_eq_spec (u : Nat) (hu : u ≤ 0x10FFFF) :
    lept_encode_utf8 u = utf8_spec u := by
  have hshr6 : u >>> 6 = u / 64 := by rw [Nat.shiftRight_eq_div_pow]
  have hshr12 : u >>> 12 = u / 4096 := by rw [Nat.shiftRight_eq_div_pow]
  have hshr18 : u >>> 18 = u / 262144 := by rw [Nat.shiftRight_eq_div_pow]
  have hand63 : ∀ w : Nat, w &&& 63 = w % 64 := fun w => by
    have h := Nat.and_pow_two_sub_one_eq_mod w 6
    norm_num at h
    exact h
  have hand255 : ∀ w : Nat, w &&& 255 = w % 256 := fun w => by
    have h := Nat.and_pow_two_sub_one_eq_mod w 8
    norm_num at h
    exact h
  have hor128 : ∀ w : Nat, w < 64 → 128 ||| w = 128 + w := fun w hw =>
    lor_const_eq_add 128 6 2 w rfl hw
  have hor192 : ∀ w : Nat, w < 64 → 192 ||| w = 192 + w := fun w hw =>
    lor_const_eq_add 192 6 3 w rfl hw
  have hor224 : ∀ w : Nat, w < 16 → 224 ||| w = 224 + w := fun w hw =>
    lor_const_eq_add 224 4 14 w rfl hw
  have hor240 : ∀ w : Nat, w < 16 → 240 ||| w = 240 + w := fun w hw =>
    lor_const_eq_add 240 4 15 w rfl hw
  unfold lept_encode_utf8 utf8_spec
  by_cases h1 : u ≤ 0x7F
  · rw [if_pos h1, if_pos h1]
    rw [hand255, Nat.mod_eq_of_lt (by omega)]
  · rw [if_neg h1, if_neg h1]
    by_cases h2 : u ≤ 0x7FF
    · rw [if_pos h2, if_pos h2]
      rw [hand255, hand63, hshr6, Nat.mod_eq_of_lt (by omega),
          hor192 _ (by omega), hor128 _ (by omega)]
    · rw [if_neg h2, if_neg h2]
      by_cases h3 : u ≤ 0xFFFF
      · rw [if_pos h3, if_pos h3]
        rw [hand255, hand63, hand63, hshr6, hshr12,
            Nat.mod_eq_of_lt (show u / 4096 < 256 by omega),
            hor224 _ (by omega), hor128 _ (Nat.mod_lt _ (by omega)),
            hor128 _ (Nat.mod_lt _ (by omega))]
      · rw [if_neg h3, if_neg h3]
        rw [hand255, hand63, hand63, hand63, hshr6, hshr12, hshr18,
            Nat.mod_eq_of_lt (show u / 262144 < 256 by omega),
            hor240 _ (by omega), hor128 _ (Nat.mod_lt _ (by omega)),
            hor128 _ (Nat.mod_lt _ (by omega)),
            hor128 _ (Nat.mod_lt _ (by omega))]

/-- The combined code point of a surrogate pair lies in the four-byte
UTF-8 range. -/
theorem surrogate_combined_range (u1 u2 : Nat)
    (h1 : 0xD800 ≤ u1) (h2 : u1 ≤ 0xDBFF) (h3 : 0xDC00 ≤ u2)
    (h4 : u2 ≤ 0xDFFF) :
    0xFFFF < (((u1 - 0xD800) <<< 10) ||| (u2 - 0xDC00)) + 0x10000 ∧
    (((u1 - 0xD800) <<< 10) ||| (u2 - 0xDC00)) + 0x10000 ≤ 0x10FFFF := by
  have he := shiftLeft_lor_eq (u1 - 0xD800) (u2 - 0xDC00) 10 (by omega)
  rw [he]
  omega

/-- Length of the scratch buffer after pushing a byte list. -/
theorem pushBytes_eq (bs : List Nat) : ∀ st : Stack,
    pushBytes st bs = ((bs.map StackItem.byte).reverse) ++ st := by
  induction bs with
  | nil => intro st; simp [pushBytes]
  | cons b bs ih =>
    intro st
    rw [pushBytes_cons, ih]
    simp

/-- Popping everything just pushed returns exactly the pushed bytes, in
push order, and restores the buffer. -/
theorem pushBytes_roundtrip (bs : List Nat) (st : Stack) :
    (((pushBytes st bs).take ((pushBytes st bs).length - st.length)).reverse).map
        itemByte = bs ∧
    (pushBytes st bs).drop ((pushBytes st bs).length - st.length) = st := by
  rw [pushBytes_eq]
  have hlen : ((bs.map StackItem.byte).reverse).length = bs.length := by simp
  have hl2 : (((bs.map StackItem.byte).reverse) ++ st).length - st.length =
      bs.length := by simp
  rw [hl2, List.take_left' hlen, List.drop_left' hlen]
  constructor
  · rw [List.reverse_reverse, List.map_map]
    have hcomp : itemByte ∘ StackItem.byte = id := by
      funext b
      rfl
    rw [hcomp, List.map_id]
  · rfl

/-- Uppercase hex digit byte. -/
def hexCharB (d : Nat) : Nat := if d < 10 then 48 + d else 55 + d

/-- hexCharB really writes hex digits. -/
theorem hexDigit_hexCharB (d : Nat) (hd : d < 16) :
    hexDigit (hexCharB d) = some d := by
  unfold hexDigit hexCharB
  split
  · rename_i h10
    have hc : ((decide (48 ≤ 48 + d) && decide (48 + d ≤ 57)) = true) := by
      simp
      omega
    rw [if_pos hc]
    simp
  · rename_i h10
    have hc1 : ¬((decide (48 ≤ 55 + d) && decide (55 + d ≤ 57)) = true) := by
      simp
      omega
    have hc2 : ((decide (65 ≤ 55 + d) && decide (55 + d ≤ 70)) = true) := by
      simp
      omega
    rw [if_neg hc1, if_pos hc2]
    simp

/-! ## Driver-level lemmas -/

/-- The driver around its (never-failing) value parse. -/
theorem lept_parse_run_eq (tb : List Nat → Bool) (json : List Nat) :
    ∃ o : POut,
      lept_parse_value tb (3 * json.length + 3) (lept_parse_whitespace json) []
        .vnull = some o ∧
      lept_parse_run tb json =
        (if o.ret = .LEPT_PARSE_OK then
          if peekB (lept_parse_whitespace o.json) ≠ 0 then
            ⟨.LEPT_PARSE_ROOT_NOT_SINGULAR, .vnull,
             lept_parse_whitespace o.json, o.stack⟩
          else ⟨.LEPT_PARSE_OK, o.v, lept_parse_whitespace o.json, o.stack⟩
        else o) := by
  cases hv : lept_parse_value tb (3 * json.length + 3)
      (lept_parse_whitespace json) [] .vnull with
  | none => exact absurd hv (lept_parse_run_some tb json)
  | some o =>
    refine ⟨o, rfl, ?_⟩
    unfold lept_parse_run
    rw [hv]

/-! ## Claim C1 -/

/-- C1: for every input and every strtod-overflow behaviour, whenever
lept_parse returns a status other than OK — InvalidValue, NumberTooBig,
errors from nested array elements, RootNotSingular after a complete value,
or any other error — the value handed to the caller has type Null. -/
theorem lept_parse_error_leaves_null (tb : List Nat → Bool) (json : List Nat)
    (h : (lept_parse tb json).1 ≠ .LEPT_PARSE_OK) :
    lept_get_type (lept_parse tb json).2 = .LEPT_NULL := by
  obtain ⟨o, hv, hrun⟩ := lept_parse_run_eq tb json
  unfold lept_parse at h ⊢
  rw [hrun] at h ⊢
  by_cases hok : o.ret = .LEPT_PARSE_OK
  · rw [if_pos hok] at h ⊢
    by_cases hr : peekB (lept_parse_whitespace o.json) ≠ 0
    · rw [if_pos hr]
      rfl
    · rw [if_neg hr] at h ⊢
      exact absurd rfl h
  · rw [if_neg hok] at h ⊢
    have hval := (lept_parse_value_inv tb _ _ _ _ _ hv).2.2.2.1 hok
    rw [hval]
    rfl

/-- Witness for C1 at a concrete input: with an overflowing conversion,
parsing 1e309 fails with NumberTooBig and the value is left Null. -/
theorem lept_parse_error_leaves_null_witness :
    (lept_parse (fun _ => true) (jbytes "1e309")).1 ≠ .LEPT_PARSE_OK ∧
    lept_get_type (lept_parse (fun _ => true) (jbytes "1e309")).2 =
      .LEPT_NULL :=
  ⟨by decide, lept_parse_error_leaves_null (fun _ => true) (jbytes "1e309")
    (by decide)⟩

/-! ## Claim C2 -/

/-- C2: at the moment lept_parse returns, the scratch buffer's used length
is exactly zero (the assertion `c.top == 0` can never fail); moreover any
string scan leaves the buffer exactly as it found it (errors restore it to
the mark recorded at the string's start), and the array element loop pops
every element it staged. -/
theorem lept_parse_scratch_top_zero :
    (∀ (tb : List Nat → Bool) (json : List Nat),
      (lept_parse_run tb json).stack = []) ∧
    (∀ (l : List Nat) (st : Stack) (v : LeptValue) (o : POut),
      lept_parse_string l st v = some o → o.stack = st) ∧
    (∀ (tb : List Nat → Bool) (f fuel : Nat) (l : List Nat) (st : Stack)
       (v : LeptValue) (size : Nat) (o : POut),
      lept_parse_array_loop (lept_parse_value tb f) fuel l st v size = some o →
      size ≤ st.length → o.stack = st.drop size) := by
  refine ⟨?_, ?_, ?_⟩
  · intro tb json
    obtain ⟨o, hv, hrun⟩ := lept_parse_run_eq tb json
    have hstack := (lept_parse_value_inv tb _ _ _ _ _ hv).1
    rw [hrun]
    by_cases hok : o.ret = .LEPT_PARSE_OK
    · rw [if_pos hok]
      by_cases hr : peekB (lept_parse_whitespace o.json) ≠ 0
      · rw [if_pos hr]
        exact hstack
      · rw [if_neg hr]
        exact hstack
    · rw [if_neg hok]
      exact hstack
  · intro l st v o h
    exact (lept_parse_string_spec l st v o h).1
  · intro tb f fuel l st v size o h hsz
    exact (lept_parse_array_loop_inv (lept_parse_value tb f)
      (fun l2 st2 v2 o2 h2 => (lept_parse_value_inv tb f l2 st2 v2 o2 h2).2.1)
      (fun l2 st2 v2 o2 h2 => (lept_parse_value_inv tb f l2 st2 v2 o2 h2).1)
      fuel l st v size o h hsz).2.1

/-! ## Claim C10 -/

/-- The whitespace skip is exactly a dropWhile over the four bytes space,
tab, line feed, carriage return. -/
theorem lept_parse_whitespace_eq_dropWhile (l : List Nat) :
    lept_parse_whitespace l =
      l.dropWhile (fun b => b = 32 || b = 9 || b = 10 || b = 13) := by
  induction l with
  | nil => rfl
  | cons b r ih =>
    rw [lept_parse_whitespace, List.dropWhile_cons]
    by_cases hb : (decide (b = 32) || decide (b = 9) || decide (b = 10) ||
        decide (b = 13)) = true
    · rw [if_pos hb, if_pos hb]
      exact ih
    · rw [if_neg hb, if_neg hb]

/-- C10: the bytes the parser skips as whitespace are exactly space (32),
tab (9), line feed (10) and carriage return (13); any other byte starts a
value parse, so a lone form feed (12) or vertical tab (11) yields
InvalidValue, not ExpectValue. -/
theorem lept_parse_whitespace_exactly_four :
    (∀ l : List Nat, lept_parse_whitespace l =
      l.dropWhile (fun b => b = 32 || b = 9 || b = 10 || b = 13)) ∧
    lept_parse strtodNoOverflow [12] = (.LEPT_PARSE_INVALID_VALUE, .vnull) ∧
    lept_parse strtodNoOverflow [11] = (.LEPT_PARSE_INVALID_VALUE, .vnull) ∧
    (.LEPT_PARSE_INVALID_VALUE : LeptStatus) ≠ .LEPT_PARSE_EXPECT_VALUE :=
  ⟨lept_parse_whitespace_eq_dropWhile, rfl, rfl, by decide⟩

/-! ## Claim C3 (corrected) -/

/-- Counterexample to C3 as stated: parsing [1,] returns InvalidValue (the
closing bracket after the comma starts a value parse, which the number
parser rejects), not MissCommaOrSquareBracket. -/
theorem array_trailing_comma_counterexample :
    lept_parse strtodNoOverflow (jbytes "[1,]") =
      (.LEPT_PARSE_INVALID_VALUE, .vnull) ∧
    (.LEPT_PARSE_INVALID_VALUE : LeptStatus) ≠
      .LEPT_PARSE_MISS_COMMA_OR_SQUARE_BRACKET :=
  ⟨rfl, by decide⟩

/-- C3 amended: [1,] yields InvalidValue; MissCommaOrSquareBracket arises
when, after a parsed element, the next non-whitespace byte is neither a
comma nor a closing bracket (e.g. for [1 or [1 2]). -/
theorem array_trailing_comma_amended :
    lept_parse strtodNoOverflow (jbytes "[1,]") =
      (.LEPT_PARSE_INVALID_VALUE, .vnull) ∧
    lept_parse strtodNoOverflow (jbytes "[1") =
      (.LEPT_PARSE_MISS_COMMA_OR_SQUARE_BRACKET, .vnull) ∧
    lept_parse strtodNoOverflow (jbytes "[1 2]") =
      (.LEPT_PARSE_MISS_COMMA_OR_SQUARE_BRACKET, .vnull) :=
  ⟨rfl, rfl, rfl⟩

/-! ## Claim C4 (corrected) -/

/-- When no literal/array/string/end case applies, lept_parse_value falls
through to the number parser. -/
theorem lept_parse_value_number (tb : List Nat → Bool) (f : Nat) (l : List Nat)
    (st : Stack) (v : LeptValue)
    (h1 : peekB l ≠ 110) (h2 : peekB l ≠ 116) (h3 : peekB l ≠ 102)
    (h4 : peekB l ≠ 91) (h5 : peekB l ≠ 34) (h6 : peekB l ≠ 0) :
    lept_parse_value tb (f + 1) l st v =
      some (withStack (lept_parse_number tb l v) st) := by
  rw [lept_parse_value, if_neg h1, if_neg h2, if_neg h3, if_neg h4, if_neg h5,
      if_neg h6]

/-- Counterexample to C4 as stated: parsing 0123 returns RootNotSingular,
not InvalidValue — the number parser accepts the single 0 and the driver
rejects the leftover digits. -/
theorem leading_zero_counterexample :
    lept_parse strtodNoOverflow (jbytes "0123") =
      (.LEPT_PARSE_ROOT_NOT_SINGULAR, .vnull) ∧
    (.LEPT_PARSE_ROOT_NOT_SINGULAR : LeptStatus) ≠ .LEPT_PARSE_INVALID_VALUE :=
  ⟨rfl, by decide⟩

/-- C4 amended: for every top-level number token whose integer part is a
zero followed immediately by another digit (optionally signed), the number
parser accepts exactly the zero (and the optional sign), and lept_parse
then returns RootNotSingular — not InvalidValue — with the root left
Null. -/
theorem leading_zero_root_not_singular (tb : List Nat → Bool) (m : Bool)
    (d : Nat) (ds : List Nat) (hd : isDigitB d = true)
    (htb : tb ((if m then [45] else []) ++ 48 :: d :: ds) = false) :
    lept_parse tb ((if m then [45] else []) ++ 48 :: d :: ds) =
      (.LEPT_PARSE_ROOT_NOT_SINGULAR, .vnull) := by
  simp only [isDigitB, Bool.and_eq_true, decide_eq_true_eq] at hd
  obtain ⟨hd1, hd2⟩ := hd
  have hdws : lept_parse_whitespace (d :: ds) = d :: ds := by
    rw [lept_parse_whitespace, if_neg]
    simp only [Bool.or_eq_true, decide_eq_true_eq]
    omega
  have hdne : peekB (d :: ds) ≠ 0 := by
    simp only [peekB]
    omega
  have hfrac : numFrac (d :: ds) = some (d :: ds) := by
    unfold numFrac
    rw [if_neg]
    simp only [peekB]
    omega
  have hexp : numExp (d :: ds) = some (d :: ds) := by
    unfold numExp
    rw [if_neg]
    simp only [peekB, Bool.or_eq_true, decide_eq_true_eq]
    omega
  cases m with
  | false =>
    simp only [Bool.false_eq_true, if_false, List.nil_append] at htb ⊢
    have hnum : lept_parse_number tb (48 :: d :: ds) .vnull =
        (.LEPT_PARSE_OK, .vnumber (48 :: d :: ds), d :: ds) := by
      unfold lept_parse_number
      rw [if_neg (by simp [peekB])]
      rw [show numInt (48 :: d :: ds) = some (d :: ds) from by
        unfold numInt
        rw [if_pos (by simp [peekB])]
        rfl]
      dsimp only
      rw [hfrac]
      dsimp only
      rw [hexp]
      dsimp only
      rw [htb]
      simp
    obtain ⟨o, hv, hrun⟩ := lept_parse_run_eq tb (48 :: d :: ds)
    rw [show lept_parse_whitespace (48 :: d :: ds) = 48 :: d :: ds from by
          rw [lept_parse_whitespace, if_neg (by decide)],
        show 3 * (48 :: d :: ds).length + 3 = (3 * (48 :: d :: ds).length + 2) + 1
          from rfl,
        lept_parse_value_number tb _ _ [] .vnull (by simp [peekB])
          (by simp [peekB]) (by simp [peekB]) (by simp [peekB])
          (by simp [peekB]) (by simp [peekB]), hnum] at hv
    injection hv with hv
    unfold lept_parse
    rw [hrun, ← hv]
    dsimp only [withStack]
    rw [if_pos rfl, hdws, if_pos hdne]
  | true =>
    simp only [if_true, List.cons_append, List.nil_append] at htb ⊢
    have hnum : lept_parse_number tb (45 :: 48 :: d :: ds) .vnull =
        (.LEPT_PARSE_OK, .vnumber (45 :: 48 :: d :: ds), d :: ds) := by
      unfold lept_parse_number
      rw [if_pos (by simp [peekB])]
      rw [show numInt ((45 : Nat) :: 48 :: d :: ds).tail = some (d :: ds) from by
        unfold numInt
        rw [if_pos (by simp [peekB])]
        rfl]
      dsimp only
      rw [hfrac]
      dsimp only
      rw [hexp]
      dsimp only
      rw [htb]
      simp
    obtain ⟨o, hv, hrun⟩ := lept_parse_run_eq tb (45 :: 48 :: d :: ds)
    rw [show lept_parse_whitespace (45 :: 48 :: d :: ds) = 45 :: 48 :: d :: ds
          from by rw [lept_parse_whitespace, if_neg (by decide)],
        show 3 * ((45 : Nat) :: 48 :: d :: ds).length + 3 =
          (3 * ((45 : Nat) :: 48 :: d :: ds).length + 2) + 1 from rfl,
        lept_parse_value_number tb _ _ [] .vnull (by simp [peekB])
          (by simp [peekB]) (by simp [peekB]) (by simp [peekB])
          (by simp [peekB]) (by simp [peekB]), hnum] at hv
    injection hv with hv
    unfold lept_parse
    rw [hrun, ← hv]
    dsimp only [withStack]
    rw [if_pos rfl, hdws, if_pos hdne]

/-- Witness for the amended C4 at the concrete token 0123. -/
theorem leading_zero_root_not_singular_witness :
    isDigitB 49 = true ∧
    lept_parse strtodNoOverflow
        ((if false then [45] else []) ++ 48 :: 49 :: [50, 51]) =
      (.LEPT_PARSE_ROOT_NOT_SINGULAR, .vnull) :=
  ⟨by decide, leading_zero_root_not_singular strtodNoOverflow false 49 [50, 51]
    (by decide) (by decide)⟩

/-! ## Claims C5 and C6: the Unicode escape paths -/

/-- lept_parse_hex4 on four written hex digits. -/
theorem lept_parse_hex4_hexCharB (x1 x2 x3 x4 : Nat) (r : List Nat)
    (h1 : x1 < 16) (h2 : x2 < 16) (h3 : x3 < 16) (h4 : x4 < 16) :
    lept_parse_hex4 (hexCharB x1 :: hexCharB x2 :: hexCharB x3 ::
      hexCharB x4 :: r) =
      some ((((x1 <<< 4 ||| x2) <<< 4 ||| x3) <<< 4 ||| x4), r) := by
  unfold lept_parse_hex4
  dsimp only
  rw [hexDigit_hexCharB _ h1, hexDigit_hexCharB _ h2, hexDigit_hexCharB _ h3,
      hexDigit_hexCharB _ h4]

/-- The driver on a quoted input, reduced to the string scan loop. -/
theorem lept_parse_quote (tb : List Nat → Bool) (r : List Nat) (o : POut)
    (h : lept_parse_string_loop (r.length + 1) r r [] [] .vnull = some o) :
    lept_parse tb (34 :: r) =
      (if o.ret = .LEPT_PARSE_OK then
        if peekB (lept_parse_whitespace o.json) ≠ 0 then
          (.LEPT_PARSE_ROOT_NOT_SINGULAR, .vnull)
        else (.LEPT_PARSE_OK, o.v)
      else (o.ret, o.v)) := by
  obtain ⟨o2, hv, hrun⟩ := lept_parse_run_eq tb (34 :: r)
  rw [show lept_parse_whitespace (34 :: r) = 34 :: r from by
        rw [lept_parse_whitespace, if_neg (by decide)],
      show 3 * ((34 : Nat) :: r).length + 3 =
        (3 * ((34 : Nat) :: r).length + 2) + 1 from rfl,
      lept_parse_value,
      if_neg (by simp [peekB]), if_neg (by simp [peekB]),
      if_neg (by simp [peekB]), if_neg (by simp [peekB]),
      if_pos (show peekB ((34 : Nat) :: r) = 34 by simp [peekB]),
      lept_parse_string, if_pos (show peekB ((34 : Nat) :: r) = 34 by simp [peekB])]
      at hv
  simp only [List.tail_cons] at hv
  rw [h] at hv
  injection hv with hv
  unfold lept_parse
  rw [hrun, ← hv]
  by_cases hok : o.ret = .LEPT_PARSE_OK
  · rw [if_pos hok, if_pos hok]
    by_cases hr : peekB (lept_parse_whitespace o.json) ≠ 0
    · rw [if_pos hr, if_pos hr]
    · rw [if_neg hr, if_neg hr]
  · rw [if_neg hok, if_neg hok]

/-- One step of the string scan loop at a high-surrogate \u escape. -/
theorem strLoop_high_surrogate_step (f : Nat) (x1 x2 x3 x4 u : Nat)
    (q j0 : List Nat) (st0 st : Stack) (v : LeptValue)
    (h1 : x1 < 16) (h2 : x2 < 16) (h3 : x3 < 16) (h4 : x4 < 16)
    (hu : u = (((x1 <<< 4 ||| x2) <<< 4 ||| x3) <<< 4 ||| x4))
    (hs1 : 0xD800 ≤ u) (hs2 : u ≤ 0xDBFF) :
    lept_parse_string_loop (f + 1)
      (92 :: 117 :: hexCharB x1 :: hexCharB x2 :: hexCharB x3 ::
        hexCharB x4 :: q) j0 st0 st v =
      (if peekB q ≠ 92 then
        some ⟨.LEPT_PARSE_INVALID_UNICODE_SURROGATE, v, j0, st0⟩
      else if peekB q.tail ≠ 117 then
        some ⟨.LEPT_PARSE_INVALID_UNICODE_SURROGATE, v, j0, st0⟩
      else
        match lept_parse_hex4 q.tail.tail with
        | none => some ⟨.LEPT_PARSE_INVALID_UNICODE_HEX, v, j0, st0⟩
        | some (u2, r5) =>
          if u2 < 0xDC00 || 0xDFFF < u2 then
            some ⟨.LEPT_PARSE_INVALID_UNICODE_SURROGATE, v, j0, st0⟩
          else
            lept_parse_string_loop f r5 j0 st0
              (pushBytes st
                (lept_encode_utf8
                  ((((u - 0xD800) <<< 10) ||| (u2 - 0xDC00)) + 0x10000))) v) := by
  rw [lept_parse_string_loop,
      if_neg (by simp [peekB]),
      if_pos (show peekB ((92 : Nat) :: _) = 92 by simp [peekB]),
      if_neg (by simp [peekB]), if_neg (by simp [peekB]),
      if_neg (by simp [peekB]), if_neg (by simp [peekB]),
      if_neg (by simp [peekB]), if_neg (by simp [peekB]),
      if_neg (by simp [peekB]), if_neg (by simp [peekB]),
      if_pos (by simp [peekB])]
  simp only [List.tail_cons]
  rw [lept_parse_hex4_hexCharB x1 x2 x3 x4 q h1 h2 h3 h4]
  dsimp only
  rw [← hu,
      if_pos (show (decide (0xD800 ≤ u) && decide (u ≤ 0xDBFF)) = true by
        simp only [Bool.and_eq_true, decide_eq_true_eq]
        exact ⟨hs1, hs2⟩)]

/-- Counterexample to C5 as stated: after a high surrogate, four following
characters that are not all hex digits yield InvalidUnicodeHex, not
InvalidUnicodeSurrogate. -/
theorem surrogate_low_badhex_counterexample :
    lept_parse strtodNoOverflow (jbytes "\"\\uD800\\uZZZZ\"") =
      (.LEPT_PARSE_INVALID_UNICODE_HEX, .vnull) ∧
    (.LEPT_PARSE_INVALID_UNICODE_HEX : LeptStatus) ≠
      .LEPT_PARSE_INVALID_UNICODE_SURROGATE :=
  ⟨rfl, by decide⟩

/-- C5 amended: after a \u escape decoding into [0xD800, 0xDBFF], a
missing backslash, a missing u, or a decoded second unit outside
[0xDC00, 0xDFFF] each yield InvalidUnicodeSurrogate, while four following
characters that fail the hex decode yield InvalidUnicodeHex. -/
theorem surrogate_error_statuses :
    (∀ (tb : List Nat → Bool) (x1 x2 x3 x4 u b : Nat) (rest : List Nat),
      x1 < 16 → x2 < 16 → x3 < 16 → x4 < 16 →
      u = (((x1 <<< 4 ||| x2) <<< 4 ||| x3) <<< 4 ||| x4) →
      0xD800 ≤ u → u ≤ 0xDBFF → b ≠ 92 →
      lept_parse tb (34 :: 92 :: 117 :: hexCharB x1 :: hexCharB x2 ::
        hexCharB x3 :: hexCharB x4 :: b :: rest) =
        (.LEPT_PARSE_INVALID_UNICODE_SURROGATE, .vnull)) ∧
    (∀ (tb : List Nat → Bool) (x1 x2 x3 x4 u c : Nat) (rest : List Nat),
      x1 < 16 → x2 < 16 → x3 < 16 → x4 < 16 →
      u = (((x1 <<< 4 ||| x2) <<< 4 ||| x3) <<< 4 ||| x4) →
      0xD800 ≤ u → u ≤ 0xDBFF → c ≠ 117 →
      lept_parse tb (34 :: 92 :: 117 :: hexCharB x1 :: hexCharB x2 ::
        hexCharB x3 :: hexCharB x4 :: 92 :: c :: rest) =
        (.LEPT_PARSE_INVALID_UNICODE_SURROGATE, .vnull)) ∧
    (∀ (tb : List Nat → Bool) (x1 x2 x3 x4 u : Nat) (q : List Nat),
      x1 < 16 → x2 < 16 → x3 < 16 → x4 < 16 →
      u = (((x1 <<< 4 ||| x2) <<< 4 ||| x3) <<< 4 ||| x4) →
      0xD800 ≤ u → u ≤ 0xDBFF → lept_parse_hex4 q = none →
      lept_parse tb (34 :: 92 :: 117 :: hexCharB x1 :: hexCharB x2 ::
        hexCharB x3 :: hexCharB x4 :: 92 :: 117 :: q) =
        (.LEPT_PARSE_INVALID_UNICODE_HEX, .vnull)) ∧
    (∀ (tb : List Nat → Bool) (x1 x2 x3 x4 u y1 y2 y3 y4 u2 : Nat)
       (rest : List Nat),
      x1 < 16 → x2 < 16 → x3 < 16 → x4 < 16 →
      y1 < 16 → y2 < 16 → y3 < 16 → y4 < 16 →
      u = (((x1 <<< 4 ||| x2) <<< 4 ||| x3) <<< 4 ||| x4) →
      u2 = (((y1 <<< 4 ||| y2) <<< 4 ||| y3) <<< 4 ||| y4) →
      0xD800 ≤ u → u ≤ 0xDBFF → u2 < 0xDC00 ∨ 0xDFFF < u2 →
      lept_parse tb (34 :: 92 :: 117 :: hexCharB x1 :: hexCharB x2 ::
        hexCharB x3 :: hexCharB x4 :: 92 :: 117 :: hexCharB y1 ::
        hexCharB y2 :: hexCharB y3 :: hexCharB y4 :: rest) =
        (.LEPT_PARSE_INVALID_UNICODE_SURROGATE, .vnull)) := by
  refine ⟨?_, ?_, ?_, ?_⟩
  · intro tb x1 x2 x3 x4 u b rest h1 h2 h3 h4 hu hs1 hs2 hb
    rw [lept_parse_quote tb _
      ⟨.LEPT_PARSE_INVALID_UNICODE_SURROGATE, .vnull,
       92 :: 117 :: hexCharB x1 :: hexCharB x2 :: hexCharB x3 ::
         hexCharB x4 :: b :: rest, []⟩
      (by
        rw [show (92 :: 117 :: hexCharB x1 :: hexCharB x2 :: hexCharB x3 ::
              hexCharB x4 :: b :: rest).length + 1 =
            ((92 :: 117 :: hexCharB x1 :: hexCharB x2 :: hexCharB x3 ::
              hexCharB x4 :: b :: rest).length) + 1 from rfl,
          strLoop_high_surrogate_step _ x1 x2 x3 x4 u (b :: rest) _ _ _ _
            h1 h2 h3 h4 hu hs1 hs2,
          if_pos (show peekB (b :: rest) ≠ 92 by simpa [peekB] using hb)])]
    rw [if_neg (by simp)]
  · intro tb x1 x2 x3 x4 u c rest h1 h2 h3 h4 hu hs1 hs2 hc
    rw [lept_parse_quote tb _
      ⟨.LEPT_PARSE_INVALID_UNICODE_SURROGATE, .vnull,
       92 :: 117 :: hexCharB x1 :: hexCharB x2 :: hexCharB x3 ::
         hexCharB x4 :: 92 :: c :: rest, []⟩
      (by
        rw [strLoop_high_surrogate_step _ x1 x2 x3 x4 u (92 :: c :: rest) _ _ _ _
            h1 h2 h3 h4 hu hs1 hs2,
          if_neg (show ¬peekB ((92 : Nat) :: c :: rest) ≠ 92 by simp [peekB]),
          if_pos (show peekB ((92 : Nat) :: c :: rest).tail ≠ 117 by
            simpa [peekB] using hc)])]
    rw [if_neg (by simp)]
  · intro tb x1 x2 x3 x4 u q h1 h2 h3 h4 hu hs1 hs2 hq
    rw [lept_parse_quote tb _
      ⟨.LEPT_PARSE_INVALID_UNICODE_HEX, .vnull,
       92 :: 117 :: hexCharB x1 :: hexCharB x2 :: hexCharB x3 ::
         hexCharB x4 :: 92 :: 117 :: q, []⟩
      (by
        rw [strLoop_high_surrogate_step _ x1 x2 x3 x4 u (92 :: 117 :: q) _ _ _ _
            h1 h2 h3 h4 hu hs1 hs2,
          if_neg (show ¬peekB ((92 : Nat) :: 117 :: q) ≠ 92 by simp [peekB]),
          if_neg (show ¬peekB ((92 : Nat) :: 117 :: q).tail ≠ 117 by
            simp [peekB])]
        simp only [List.tail_cons]
        rw [hq])]
    rw [if_neg (by simp)]
  · intro tb x1 x2 x3 x4 u y1 y2 y3 y4 u2 rest h1 h2 h3 h4 g1 g2 g3 g4 hu hu2
      hs1 hs2 hlo
    rw [lept_parse_quote tb _
      ⟨.LEPT_PARSE_INVALID_UNICODE_SURROGATE, .vnull,
       92 :: 117 :: hexCharB x1 :: hexCharB x2 :: hexCharB x3 ::
         hexCharB x4 :: 92 :: 117 :: hexCharB y1 :: hexCharB y2 ::
         hexCharB y3 :: hexCharB y4 :: rest, []⟩
      (by
        rw [strLoop_high_surrogate_step _ x1 x2 x3 x4 u
            (92 :: 117 :: hexCharB y1 :: hexCharB y2 :: hexCharB y3 ::
              hexCharB y4 :: rest) _ _ _ _ h1 h2 h3 h4 hu hs1 hs2,
          if_neg (by simp [peekB]),
          if_neg (by simp [peekB])]
        simp only [List.tail_cons]
        rw [lept_parse_hex4_hexCharB y1 y2 y3 y4 rest g1 g2 g3 g4]
        dsimp only
        rw [← hu2,
          if_pos (show (decide (u2 < 0xDC00) || decide (0xDFFF < u2)) = true by
            simp only [Bool.or_eq_true, decide_eq_true_eq]
            exact hlo)])]
    rw [if_neg (by simp)]

/-- Witness for the amended C5, one concrete input per failing shape. -/
theorem surrogate_error_statuses_witness :
    lept_parse strtodNoOverflow
        (34 :: 92 :: 117 :: hexCharB 13 :: hexCharB 8 :: hexCharB 0 ::
          hexCharB 0 :: 120 :: [34]) =
      (.LEPT_PARSE_INVALID_UNICODE_SURROGATE, .vnull) ∧
    lept_parse strtodNoOverflow
        (34 :: 92 :: 117 :: hexCharB 13 :: hexCharB 8 :: hexCharB 0 ::
          hexCharB 0 :: 92 :: 110 :: [34]) =
      (.LEPT_PARSE_INVALID_UNICODE_SURROGATE, .vnull) ∧
    lept_parse strtodNoOverflow
        (34 :: 92 :: 117 :: hexCharB 13 :: hexCharB 8 :: hexCharB 0 ::
          hexCharB 0 :: 92 :: 117 :: [90, 90, 90, 90, 34]) =
      (.LEPT_PARSE_INVALID_UNICODE_HEX, .vnull) ∧
    lept_parse strtodNoOverflow
        (34 :: 92 :: 117 :: hexCharB 13 :: hexCharB 8 :: hexCharB 0 ::
          hexCharB 0 :: 92 :: 117 :: hexCharB 14 :: hexCharB 0 ::
          hexCharB 0 :: hexCharB 0 :: [34]) =
      (.LEPT_PARSE_INVALID_UNICODE_SURROGATE, .vnull) :=
  ⟨surrogate_error_statuses.1 strtodNoOverflow 13 8 0 0 0xD800 120 [34]
    (by decide) (by decide) (by decide) (by decide) (by decide) (by decide)
    (by decide) (by decide),
   surrogate_error_statuses.2.1 strtodNoOverflow 13 8 0 0 0xD800 110 [34]
    (by decide) (by decide) (by decide) (by decide) (by decide) (by decide)
    (by decide) (by decide),
   surrogate_error_statuses.2.2.1 strtodNoOverflow 13 8 0 0 0xD800
    [90, 90, 90, 90, 34] (by decide) (by decide) (by decide) (by decide)
    (by decide) (by decide) (by decide) (by decide),
   surrogate_error_statuses.2.2.2 strtodNoOverflow 13 8 0 0 0xD800 14 0 0 0
    0xE000 [34] (by decide) (by decide) (by decide) (by decide) (by decide)
    (by decide) (by decide) (by decide) (by decide) (by decide) (by decide)
    (by decide) (Or.inr (by decide))⟩

/-- C6: the quoted surrogate pair \uD834\uDD1E parses to the string whose
bytes are F0 9D 84 9E (UTF-8 for U+1D11E); in general every high/low
surrogate escape pair combines via
codepoint = ((high - 0xD800) << 10 | (low - 0xDC00)) + 0x10000 and the
code point is encoded by the standard UTF-8 boundary table. -/
theorem surrogate_pair_decoding :
    lept_parse strtodNoOverflow (jbytes "\"\\uD834\\uDD1E\"") =
      (.LEPT_PARSE_OK, .vstring [0xF0, 0x9D, 0x84, 0x9E]) ∧
    (∀ (tb : List Nat → Bool) (x1 x2 x3 x4 u y1 y2 y3 y4 u2 : Nat),
      x1 < 16 → x2 < 16 → x3 < 16 → x4 < 16 →
      y1 < 16 → y2 < 16 → y3 < 16 → y4 < 16 →
      u = (((x1 <<< 4 ||| x2) <<< 4 ||| x3) <<< 4 ||| x4) →
      u2 = (((y1 <<< 4 ||| y2) <<< 4 ||| y3) <<< 4 ||| y4) →
      0xD800 ≤ u → u ≤ 0xDBFF → 0xDC00 ≤ u2 → u2 ≤ 0xDFFF →
      lept_parse tb (34 :: 92 :: 117 :: hexCharB x1 :: hexCharB x2 ::
        hexCharB x3 :: hexCharB x4 :: 92 :: 117 :: hexCharB y1 ::
        hexCharB y2 :: hexCharB y3 :: hexCharB y4 :: [34]) =
        (.LEPT_PARSE_OK,
         .vstring (utf8_spec ((((u - 0xD800) <<< 10) ||| (u2 - 0xDC00)) +
           0x10000)))) := by
  constructor
  · rfl
  · intro tb x1 x2 x3 x4 u y1 y2 y3 y4 u2 h1 h2 h3 h4 g1 g2 g3 g4 hu hu2
      hs1 hs2 hl1 hl2
    have hcp := surrogate_combined_range u u2 hs1 hs2 hl1 hl2
    rw [lept_parse_quote tb _
      ⟨.LEPT_PARSE_OK,
       .vstring (lept_encode_utf8
         ((((u - 0xD800) <<< 10) ||| (u2 - 0xDC00)) + 0x10000)), [], []⟩
      (by
        rw [strLoop_high_surrogate_step _ x1 x2 x3 x4 u
            (92 :: 117 :: hexCharB y1 :: hexCharB y2 :: hexCharB y3 ::
              hexCharB y4 :: [34]) _ _ _ _ h1 h2 h3 h4 hu hs1 hs2,
          if_neg (by simp [peekB]), if_neg (by simp [peekB])]
        simp only [List.tail_cons]
        rw [lept_parse_hex4_hexCharB y1 y2 y3 y4 [34] g1 g2 g3 g4]
        dsimp only
        rw [← hu2,
          if_neg (show ¬(decide (u2 < 0xDC00) || decide (0xDFFF < u2)) = true by
            simp only [Bool.or_eq_true, decide_eq_true_eq]
            omega),
          show (92 :: 117 :: hexCharB x1 :: hexCharB x2 :: hexCharB x3 ::
            hexCharB x4 :: 92 :: 117 :: hexCharB y1 :: hexCharB y2 ::
            hexCharB y3 :: hexCharB y4 :: [34]).length = 12 + 1 from by simp,
          lept_parse_string_loop,
          if_pos (show peekB [34] = 34 by simp [peekB]),
          (pushBytes_roundtrip (lept_encode_utf8
            ((((u - 0xD800) <<< 10) ||| (u2 - 0xDC00)) + 0x10000)) []).1,
          (pushBytes_roundtrip (lept_encode_utf8
            ((((u - 0xD800) <<< 10) ||| (u2 - 0xDC00)) + 0x10000)) []).2]
        rfl)]
    rw [if_pos rfl,
        if_neg (show ¬peekB (lept_parse_whitespace []) ≠ 0 by
          simp [lept_parse_whitespace, peekB]),
        lept_encode_utf8_eq_spec _ hcp.2]

/-- Witness for C6's general surrogate combination at the pair
D834/DD1E. -/
theorem surrogate_pair_decoding_witness :
    lept_parse strtodNoOverflow
        (34 :: 92 :: 117 :: hexCharB 13 :: hexCharB 8 :: hexCharB 3 ::
          hexCharB 4 :: 92 :: 117 :: hexCharB 13 :: hexCharB 13 ::
          hexCharB 1 :: hexCharB 14 :: [34]) =
      (.LEPT_PARSE_OK,
       .vstring (utf8_spec ((((0xD834 - 0xD800) <<< 10) |||
         (0xDD1E - 0xDC00)) + 0x10000))) :=
  surrogate_pair_decoding.2 strtodNoOverflow 13 8 3 4 0xD834 13 13 1 14 0xDD1E
    (by decide) (by decide) (by decide) (by decide) (by decide) (by decide)
    (by decide) (by decide) (by decide) (by decide) (by decide) (by decide)
    (by decide) (by decide)

/-- Witness for C2 at concrete inputs: a failed nested parse leaves the
top-level buffer empty; a string scan hitting a control character restores
the buffer below its mark; an array loop whose second element is missing
pops its staged element. -/
theorem lept_parse_scratch_top_zero_witness :
    (lept_parse_run strtodNoOverflow (jbytes "[[1,2],[3")).stack = [] ∧
    (⟨.LEPT_PARSE_INVALID_STRING_CHAR, .vnull, [97, 1, 98],
      [StackItem.byte 99]⟩ : POut).stack = [StackItem.byte 99] ∧
    (⟨.LEPT_PARSE_EXPECT_VALUE, .vnull, [], [StackItem.byte 99]⟩ : POut).stack =
      List.drop 0 [StackItem.byte 99] :=
  ⟨lept_parse_scratch_top_zero.1 strtodNoOverflow (jbytes "[[1,2],[3"),
   lept_parse_scratch_top_zero.2.1 (jbytes "\"a\x01b") [StackItem.byte 99]
     .vnull _ rfl,
   lept_parse_scratch_top_zero.2.2 strtodNoOverflow 9 9 (jbytes "1,")
     [StackItem.byte 99] .vnull 0 _ rfl (by decide)⟩

/-! ## Claim C7 -/

/-- Skipping whitespace ignores a leading all-whitespace block. -/
theorem lept_parse_whitespace_append (w r : List Nat)
    (hw : ∀ b ∈ w, b = 32 ∨ b = 9 ∨ b = 10 ∨ b = 13) :
    lept_parse_whitespace (w ++ r) = lept_parse_whitespace r := by
  induction w with
  | nil => rfl
  | cons b w2 ih =>
    rw [List.cons_append, lept_parse_whitespace, if_pos]
    · exact ih fun x hx => hw x (List.mem_cons_of_mem b hx)
    · have hb := hw b (List.mem_cons_self b w2)
      simp only [Bool.or_eq_true, decide_eq_true_eq]
      tauto

/-- C7: after lept_parse succeeds on an array: a bracket pair enclosing
only whitespace yields size 0 with a NULL element pointer and no backing
allocation; otherwise the stored size equals the length of the
materialised element list and get_array_element yields the i-th staged
element for every index below the size. -/
theorem array_size_and_elements :
    (∀ (tb : List Nat → Bool) (json : List Nat) (n : Nat)
       (e : Option (List LeptValue)),
      (lept_parse tb json).1 = .LEPT_PARSE_OK →
      (lept_parse tb json).2 = .varray n e →
      (e = none → lept_get_array_size (lept_parse tb json).2 = 0) ∧
      (∀ es, e = some es →
        lept_get_array_size (lept_parse tb json).2 = es.length ∧
        ∀ i, i < es.length →
          lept_get_array_element (lept_parse tb json).2 i =
            es.getD i .vnull)) ∧
    (∀ (tb : List Nat → Bool) (w1 w2 w3 : List Nat),
      (∀ b ∈ w1, b = 32 ∨ b = 9 ∨ b = 10 ∨ b = 13) →
      (∀ b ∈ w2, b = 32 ∨ b = 9 ∨ b = 10 ∨ b = 13) →
      (∀ b ∈ w3, b = 32 ∨ b = 9 ∨ b = 10 ∨ b = 13) →
      lept_parse tb (w1 ++ 91 :: (w2 ++ 93 :: w3)) =
        (.LEPT_PARSE_OK, .varray 0 none)) := by
  constructor
  · intro tb json n e hok hv
    obtain ⟨o, hval, hrun⟩ := lept_parse_run_eq tb json
    unfold lept_parse at hok hv ⊢
    rw [hrun] at hok hv ⊢
    by_cases ho : o.ret = .LEPT_PARSE_OK
    · rw [if_pos ho] at hok hv ⊢
      by_cases hr : peekB (lept_parse_whitespace o.json) ≠ 0
      · rw [if_pos hr] at hok
        simp at hok
      · rw [if_neg hr] at hv ⊢
        dsimp only at hv ⊢
        have hinv := (lept_parse_value_inv tb _ _ _ _ _ hval).2.2.2.2 ho n e hv
        rw [hv]
        refine ⟨fun hen => ?_, fun es hes => ?_⟩
        · subst hen
          exact hinv.1 rfl
        · subst hes
          exact ⟨hinv.2 es rfl, fun i hi => rfl⟩
    · rw [if_neg ho] at hok
      exact absurd hok ho
  · intro tb w1 w2 w3 h1 h2 h3
    obtain ⟨o, hval, hrun⟩ := lept_parse_run_eq tb (w1 ++ 91 :: (w2 ++ 93 :: w3))
    rw [lept_parse_whitespace_append w1 _ h1,
        show lept_parse_whitespace (91 :: (w2 ++ 93 :: w3)) =
          91 :: (w2 ++ 93 :: w3) from by
          rw [lept_parse_whitespace, if_neg (by decide)],
        show 3 * (w1 ++ 91 :: (w2 ++ 93 :: w3)).length + 3 =
          (3 * (w1 ++ 91 :: (w2 ++ 93 :: w3)).length + 2) + 1 from rfl,
        lept_parse_value,
        if_neg (by simp [peekB]), if_neg (by simp [peekB]),
        if_neg (by simp [peekB]),
        if_pos (show peekB ((91 : Nat) :: (w2 ++ 93 :: w3)) = 91 by
          simp [peekB])] at hval
    unfold lept_parse_array at hval
    rw [if_pos (show peekB ((91 : Nat) :: (w2 ++ 93 :: w3)) = 91 by
          simp [peekB])] at hval
    simp only [List.tail_cons] at hval
    rw [lept_parse_whitespace_append w2 _ h2,
        show lept_parse_whitespace (93 :: w3) = 93 :: w3 from by
          rw [lept_parse_whitespace, if_neg (by decide)],
        if_pos (show peekB ((93 : Nat) :: w3) = 93 by simp [peekB])] at hval
    simp only [List.tail_cons] at hval
    injection hval with hval
    unfold lept_parse
    rw [hrun, ← hval]
    rw [if_pos rfl,
        show lept_parse_whitespace w3 = [] from by
          rw [← List.append_nil w3, lept_parse_whitespace_append w3 [] h3]
          rfl,
        if_neg (show ¬peekB ([] : List Nat) ≠ 0 by simp [peekB])]

/-- Witness for C7: a three-element array in source order, and an
all-whitespace bracket pair. -/
theorem array_size_and_elements_witness :
    lept_get_array_size
        (lept_parse strtodNoOverflow (jbytes "[null, true, false]")).2 = 3 ∧
    lept_get_array_element
        (lept_parse strtodNoOverflow (jbytes "[null, true, false]")).2 0 =
      .vnull ∧
    lept_get_array_element
        (lept_parse strtodNoOverflow (jbytes "[null, true, false]")).2 1 =
      .vtrue ∧
    lept_get_array_element
        (lept_parse strtodNoOverflow (jbytes "[null, true, false]")).2 2 =
      .vfalse ∧
    lept_parse strtodNoOverflow ([32] ++ 91 :: ([32] ++ 93 :: [9])) =
      (.LEPT_PARSE_OK, .varray 0 none) := by
  have h := (array_size_and_elements.1 strtodNoOverflow
    (jbytes "[null, true, false]") 3 (some [.vnull, .vtrue, .vfalse])
    rfl rfl).2 [.vnull, .vtrue, .vfalse] rfl
  exact ⟨h.1, h.2 0 (by decide), h.2 1 (by decide), h.2 2 (by decide),
    array_size_and_elements.2 strtodNoOverflow [32] [32] [9]
      (by decide) (by decide) (by decide)⟩

/-! ## Claim C8 (corrected) -/

/-- Counterexample to C8 as stated: lept_free on an array holding a string
releases nothing at all — neither the child string's buffer nor the
array's backing storage, both of which the value owns. -/
theorem lept_free_shallow_counterexample :
    (lept_free (.varray 1 (some [.vstring [97]]))).2 = [] ∧
    spec_owned_content (.varray 1 (some [.vstring [97]])) =
      [.strBuf [97], .arrBuf [.vstring [97]]] ∧
    ([] : List Freed) ≠ [.strBuf [97], .arrBuf [.vstring [97]]] :=
  ⟨rfl, rfl, by simp⟩

/-- C8 amended: lept_free resets every value's type to Null and is
idempotent (freeing an already-Null value is a no-op that releases
nothing), but it releases only a String's character buffer: for any
non-String value — in particular any Array — it releases nothing, never
descending into array children or the backing storage. -/
theorem lept_free_amended :
    (∀ v : LeptValue, (lept_free v).1 = .vnull) ∧
    (∀ s : List Nat, (lept_free (.vstring s)).2 = [.strBuf s]) ∧
    (∀ v : LeptValue, lept_get_type v ≠ .LEPT_STRING → (lept_free v).2 = []) ∧
    lept_free .vnull = (.vnull, []) ∧
    (∀ v : LeptValue, lept_free (lept_free v).1 = (.vnull, [])) := by
  refine ⟨fun v => ?_, fun s => rfl, fun v hv => ?_, rfl, fun v => ?_⟩
  · cases v <;> rfl
  · cases v <;> first | rfl | exact absurd rfl hv
  · cases v <;> rfl

/-- Witness for the amended C8: the non-String clause at an array value. -/
theorem lept_free_amended_witness :
    (lept_free (.varray 1 (some [.vstring [97]]))).2 = [] :=
  lept_free_amended.2.2.1 (.varray 1 (some [.vstring [97]])) (by decide)

end Leptjson
